import Mathlib

/-!
Verification of the onedriver metadata cache (`graph` package, `cache.go`).

The Go source keeps a process-wide registry (`Cache.metadata`, a `sync.Map`
from item id to `*DriveItem`) plus tree-maintenance operations
(`InsertID`, `DeleteID`, `MoveID`), a lazy children provider
(`GetChildrenID`), a path resolver (`Get`), path-level mutators
(`Delete`, `Insert`, `Move`) and a delta synchronizer
(`pollDeltas`, `applyDelta`).

This file gives a shallow embedding of that code and proves or refutes the
frozen claims about it.  Modelling conventions:

* The registry is an association list with unique keys; `*DriveItem`
  pointers are modelled by the registry entry they are registered under,
  and in-place mutation through a pointer becomes `Registry.modifyAt`.
  Pointer-aliasing corners that a value model cannot express (an item
  registered under two keys at once) are excluded by the freshness
  hypotheses of the theorems that need them.
* Go `nil` slices: `DriveItem.children : Option (List String)` with `none`
  as the unpopulated sentinel; `append` to a `nil` slice is `getD [] ++ ·`.
* A `nil`-pointer dereference (locking a `nil` parent) is a crash; crashing
  operations return `Option` and crash as `none`.
* Remote HTTP calls are modelled by an oracle `remote : String → List
  DriveItem` giving the children the server would return for an id, and
  operations report how many remote fetches they performed.
* Go string functions (`strings.ToLower`, `strings.Split`,
  `strings.TrimSuffix`, `strings.TrimPrefix`) are from the standard
  library, not part of this repository; they are modelled below by
  structural recursion over the character list (ASCII case folding, which
  is all the theorems use).
-/

/-- Models Go `unicode.ToLower` for ASCII characters (as used by
`strings.ToLower` on the names appearing in the theorems below). -/
def lowerChar (c : Char) : Char :=
  if 65 ≤ c.toNat ∧ c.toNat ≤ 90 then Char.ofNat (c.toNat + 32) else c

/-- Models Go `strings.ToLower`. -/
def lowerStr (s : String) : String := ⟨s.data.map lowerChar⟩

/-- Character-list splitter underlying `goSplitSlash`. -/
def splitChars (sep : Char) : List Char → List (List Char)
  | [] => [[]]
  | c :: rest =>
    let r := splitChars sep rest
    if c = sep then [] :: r
    else
      match r with
      | h :: t => (c :: h) :: t
      | [] => [[c]]

/-- Models Go `strings.Split(s, "/")`. -/
def goSplitSlash (s : String) : List String :=
  (splitChars '/' s.data).map (fun cs => ⟨cs⟩)

/-- Models Go `strings.TrimSuffix(s, "/")` (removes one trailing slash). -/
def goTrimSuffixSlash (s : String) : String :=
  if s.data.getLast? = some '/' then ⟨s.data.dropLast⟩ else s

/-- Models Go `strings.TrimPrefix(s, pre)`. -/
def goTrimPref (s pre : String) : String :=
  if pre.data.isPrefixOf s.data then ⟨s.data.drop pre.length⟩ else s

/-- Models Go `strings.Join(parts, "/")`. -/
def joinSlash : List String → String
  | [] => ""
  | [s] => s
  | s :: rest => s ++ "/" ++ joinSlash rest

/-- The parent reference embedded in a drive item (`DriveItemParent` in the
repository; only its `ID` field is used by the cache code in src). -/
structure ItemParent where
  ID : String
deriving DecidableEq, Repr

/-- Modelled from the spec: the `DriveItem` struct itself is not under src
(only its callers are).  Fields follow the spec's Item entity: `id`
(`IDInternal`), `name`, `parent_id` (`Parent.ID`), `is_dir`, the ordered
child-id list with `none` as the unpopulated sentinel, the `subdir_count`
denormalization, and the tombstone marker (`Deleted ≠ nil` in Go, a
`Bool` here).  The per-item lock is a no-op in this sequential model. -/
structure DriveItem where
  IDInternal : String
  NameInternal : String
  Parent : ItemParent
  dirFlag : Bool
  children : Option (List String)
  subdir : Nat
  Deleted : Bool
deriving DecidableEq, Repr

/-- Modelled from the spec: accessor `ID()` (reads `IDInternal` under the
item lock). -/
def DriveItem.ID (d : DriveItem) : String := d.IDInternal

/-- Modelled from the spec: accessor `Name()`. -/
def DriveItem.Name (d : DriveItem) : String := d.NameInternal

/-- Modelled from the spec: accessor `ParentID()` (reads `Parent.ID`). -/
def DriveItem.ParentID (d : DriveItem) : String := d.Parent.ID

/-- Modelled from the spec: accessor `IsDir()` (whether the item is a
directory). -/
def DriveItem.IsDir (d : DriveItem) : Bool := d.dirFlag

/-- Modelled from the spec: `SetName` changes only the item's name, never
tree structure. -/
def DriveItem.SetName (d : DriveItem) (n : String) : DriveItem :=
  { d with NameInternal := n }

/-- Modelled from the spec: `Path()` is used only inside diagnostic
strings by the code in src; the recursive path computation is not in src,
so it stands in as the item's name. -/
def DriveItem.Path (d : DriveItem) : String := d.NameInternal

/-- The id-to-item mapping held in `Cache.metadata` (a `sync.Map` in Go),
modelled as an association list with unique keys.  The same type also
serves for the `map[string]*DriveItem` results of `GetChildrenID`
(keyed by lowercased name there). -/
abbrev Registry := List (String × DriveItem)

/-- Lookup (`sync.Map.Load`): first entry with the given key. -/
def Registry.load : Registry → String → Option DriveItem
  | [], _ => none
  | e :: es, id => if e.1 = id then some e.2 else Registry.load es id

/-- Store (`sync.Map.Store`): replace the entry at the key, or append a new
one. -/
def Registry.store : Registry → String → DriveItem → Registry
  | [], id, it => [(id, it)]
  | e :: es, id, it =>
    if e.1 = id then (id, it) :: es else e :: Registry.store es id it

/-- In-place mutation of the item registered at a key, through its Go
pointer. -/
def Registry.modifyAt (m : Registry) (id : String) (f : DriveItem → DriveItem) :
    Registry :=
  m.map (fun e => if e.1 = id then (e.1, f e.2) else e)

/-- Delete (`sync.Map.Delete`). -/
def Registry.eraseKey (m : Registry) (id : String) : Registry :=
  m.filter (fun e => !(e.1 == id))

/-- The key list of a registry. -/
def Registry.keys (m : Registry) : List String :=
  m.map Prod.fst

namespace Registry

@[simp] theorem load_nil (id : String) : Registry.load [] id = none := rfl

@[simp] theorem load_cons (e : String × DriveItem) (es : Registry) (id : String) :
    Registry.load (e :: es) id =
      if e.1 = id then some e.2 else Registry.load es id := rfl

@[simp] theorem store_nil (id : String) (it : DriveItem) :
    Registry.store [] id it = [(id, it)] := rfl

@[simp] theorem store_cons (e : String × DriveItem) (es : Registry)
    (id : String) (it : DriveItem) :
    Registry.store (e :: es) id it =
      if e.1 = id then (id, it) :: es else e :: Registry.store es id it := rfl

@[simp] theorem modifyAt_nil (id : String) (f : DriveItem → DriveItem) :
    Registry.modifyAt [] id f = [] := rfl

@[simp] theorem modifyAt_cons (e : String × DriveItem) (es : Registry)
    (id : String) (f : DriveItem → DriveItem) :
    Registry.modifyAt (e :: es) id f =
      (if e.1 = id then (e.1, f e.2) else e) :: Registry.modifyAt es id f := by
  by_cases h : e.1 = id <;> simp [Registry.modifyAt, h]

@[simp] theorem eraseKey_nil (id : String) : Registry.eraseKey [] id = [] := rfl

@[simp] theorem eraseKey_cons (e : String × DriveItem) (es : Registry) (id : String) :
    Registry.eraseKey (e :: es) id =
      if e.1 = id then Registry.eraseKey es id
      else e :: Registry.eraseKey es id := by
  by_cases h : e.1 = id <;> simp [Registry.eraseKey, List.filter_cons, h]

@[simp] theorem keys_nil : Registry.keys [] = [] := rfl

@[simp] theorem keys_cons (e : String × DriveItem) (m : Registry) :
    Registry.keys (e :: m) = e.1 :: Registry.keys m := rfl

theorem load_store_self (m : Registry) (id : String) (it : DriveItem) :
    Registry.load (Registry.store m id it) id = some it := by
  induction m with
  | nil => simp
  | cons e es ih =>
    by_cases h : e.1 = id <;> simp [h, ih]

theorem load_store_other (m : Registry) (id k : String) (it : DriveItem)
    (hk : k ≠ id) :
    Registry.load (Registry.store m id it) k = Registry.load m k := by
  induction m with
  | nil => simp [Ne.symm hk]
  | cons e es ih =>
    by_cases h : e.1 = id
    · subst h
      simp [Ne.symm hk, hk]
    · by_cases h2 : e.1 = k <;> simp [h, h2, hk, ih]

theorem load_modifyAt_self (m : Registry) (id : String)
    (f : DriveItem → DriveItem) :
    Registry.load (Registry.modifyAt m id f) id = (Registry.load m id).map f := by
  induction m with
  | nil => simp
  | cons e es ih =>
    by_cases h : e.1 = id <;> simp [h, ih]

theorem load_modifyAt_other (m : Registry) (id k : String)
    (f : DriveItem → DriveItem) (hk : k ≠ id) :
    Registry.load (Registry.modifyAt m id f) k = Registry.load m k := by
  induction m with
  | nil => simp
  | cons e es ih =>
    by_cases h : e.1 = id
    · subst h
      simp [Ne.symm hk, ih]
    · by_cases h2 : e.1 = k <;> simp [h, h2, hk, ih]

theorem load_eraseKey_self (m : Registry) (id : String) :
    Registry.load (Registry.eraseKey m id) id = none := by
  induction m with
  | nil => simp
  | cons e es ih =>
    by_cases h : e.1 = id <;> simp [h, ih]

theorem load_eraseKey_other (m : Registry) (id k : String) (hk : k ≠ id) :
    Registry.load (Registry.eraseKey m id) k = Registry.load m k := by
  induction m with
  | nil => simp
  | cons e es ih =>
    by_cases h : e.1 = id
    · subst h
      simp [Ne.symm hk, ih]
    · by_cases h2 : e.1 = k <;> simp [h, h2, hk, ih]

theorem mem_of_load {m : Registry} {k : String} {it : DriveItem}
    (h : Registry.load m k = some it) : (k, it) ∈ m := by
  induction m with
  | nil => simp at h
  | cons e es ih =>
    by_cases he : e.1 = k
    · simp [he] at h
      subst h
      exact List.mem_cons.2 (Or.inl (by rw [← he]))
    · simp [he] at h
      exact List.mem_cons_of_mem _ (ih h)

theorem load_isSome_iff_mem_keys {m : Registry} {k : String} :
    (Registry.load m k).isSome ↔ k ∈ Registry.keys m := by
  induction m with
  | nil => simp
  | cons e es ih =>
    by_cases he : e.1 = k
    · simp [he]
    · simp [he, ih, show k ≠ e.1 from fun hh => he hh.symm]

theorem load_eq_none_iff {m : Registry} {k : String} :
    Registry.load m k = none ↔ k ∉ Registry.keys m := by
  rw [← load_isSome_iff_mem_keys]
  cases Registry.load m k <;> simp

theorem load_of_mem {m : Registry} {k : String} {it : DriveItem}
    (hn : (Registry.keys m).Nodup) (h : (k, it) ∈ m) :
    Registry.load m k = some it := by
  induction m with
  | nil => simp at h
  | cons e es ih =>
    simp only [keys_cons, List.nodup_cons] at hn
    rcases List.mem_cons.1 h with h1 | h2
    · subst h1
      simp
    · have hk : e.1 ≠ k := by
        rintro rfl
        exact hn.1 (List.mem_map.2 ⟨(e.1, it), h2, rfl⟩)
      simpa [hk] using ih hn.2 h2

theorem keys_store (m : Registry) (id : String) (it : DriveItem) :
    Registry.keys (Registry.store m id it) =
      if id ∈ Registry.keys m then Registry.keys m
      else Registry.keys m ++ [id] := by
  induction m with
  | nil => simp
  | cons e es ih =>
    by_cases h : e.1 = id
    · simp [h]
    · by_cases h2 : id ∈ Registry.keys es <;>
        simp [h, h2, ih, show id ≠ e.1 from fun hh => h hh.symm]

@[simp] theorem keys_modifyAt (m : Registry) (id : String)
    (f : DriveItem → DriveItem) :
    Registry.keys (Registry.modifyAt m id f) = Registry.keys m := by
  induction m with
  | nil => simp
  | cons e es ih =>
    by_cases h : e.1 = id <;> simp [h, ih]

theorem keys_eraseKey_sublist (m : Registry) (id : String) :
    (Registry.keys (Registry.eraseKey m id)).Sublist (Registry.keys m) := by
  induction m with
  | nil => simp
  | cons e es ih =>
    by_cases h : e.1 = id
    · simpa [h] using ih.cons e.1
    · simpa [h] using ih.cons₂ e.1

theorem nodup_keys_store {m : Registry} {id : String} {it : DriveItem}
    (hn : (Registry.keys m).Nodup) :
    (Registry.keys (Registry.store m id it)).Nodup := by
  rw [keys_store]
  split
  · exact hn
  · next h =>
    rw [List.nodup_append]
    refine ⟨hn, List.nodup_singleton _, ?_⟩
    intro a ha hb
    simp only [List.mem_singleton] at hb
    subst hb
    exact h ha

theorem nodup_keys_modifyAt {m : Registry} {id : String}
    {f : DriveItem → DriveItem} (hn : (Registry.keys m).Nodup) :
    (Registry.keys (Registry.modifyAt m id f)).Nodup := by
  rw [keys_modifyAt]; exact hn

theorem nodup_keys_eraseKey {m : Registry} {id : String}
    (hn : (Registry.keys m).Nodup) :
    (Registry.keys (Registry.eraseKey m id)).Nodup :=
  (keys_eraseKey_sublist m id).nodup hn

theorem mem_keys_eraseKey {m : Registry} {id k : String} :
    k ∈ Registry.keys (Registry.eraseKey m id) ↔
      k ∈ Registry.keys m ∧ k ≠ id := by
  rw [← load_isSome_iff_mem_keys, ← load_isSome_iff_mem_keys]
  by_cases hk : k = id
  · subst hk
    simp [load_eraseKey_self]
  · simp [load_eraseKey_other m id k hk, hk]

end Registry

/-- The `Cache` struct: the metadata registry, the root id and the delta
cursor.  `auth` is threaded as an explicit parameter instead of a field so
that call sites that pass a different credential (`Delete` passes `nil`)
stay visible. -/
structure Cache where
  metadata : Registry
  root : String
  deltaLink : String
deriving DecidableEq, Repr

/-- Models the `Auth` value: `none` is a `nil` pointer, `some tok` carries
`AccessToken = tok`.  `authOK` is the check
`auth == nil || auth.AccessToken == ""` (negated). -/
def authOK : Option String → Bool
  | none => false
  | some tok => !(tok == "")

/-- Models the known URL prefix stripped from delta links.  Modelled from
the spec: `graphURL` itself is not under src. -/
def graphURL : String := "https://graph.microsoft.com/v1.0"

/-- `Cache.GetID`: plain registry lookup, no fetching. -/
def Cache.GetID (c : Cache) (id : String) : Option DriveItem :=
  Registry.load c.metadata id

/-- `Cache.InsertID`: stores `item` under `id`, then links it into its
parent (looked up by `item.ParentID()` in the post-store registry, as the
Go code does).  If the parent is absent (or the parent id is empty) the
item stays registered but unlinked.  If `id` is already among the
parent's children the parent is left alone.  Otherwise the parent's
`subdir` is bumped when `item.IsDir()`, `item.IDInternal` (not `id`!) is
appended to `parent.children`, and `item.Parent.ID` is rewritten to the
parent's `IDInternal`.  In-place pointer mutations become `modifyAt`. -/
def Cache.InsertID (c : Cache) (id : String) (item : DriveItem) : Cache :=
  let m1 := Registry.store c.metadata id item
  let parentID := item.ParentID
  if parentID = "" then { c with metadata := m1 }
  else
    match Registry.load m1 parentID with
    | none => { c with metadata := m1 }
    | some parent =>
      if (parent.children.getD []).contains id then { c with metadata := m1 }
      else
        let m2 := if item.IsDir then
            Registry.modifyAt m1 parentID (fun p => { p with subdir := p.subdir + 1 })
          else m1
        let m3 := Registry.modifyAt m2 parentID (fun p =>
          { p with children := some ((p.children.getD []) ++ [item.IDInternal]) })
        let m4 := Registry.modifyAt m3 id (fun it =>
          { it with Parent := ⟨parent.IDInternal⟩ })
        { c with metadata := m4 }

/-- The `parent.children` removal loop body of `DeleteID`: remove the
first occurrence of `id` and decrement `subdir` when the deleted item is
a directory; a parent whose list does not contain `id` is untouched. -/
def unlinkChild (id : String) (isDir : Bool) : DriveItem → DriveItem :=
  fun p =>
    if (p.children.getD []).contains id then
      { p with children := some ((p.children.getD []).erase id),
               subdir := if isDir then p.subdir - 1 else p.subdir }
    else p

/-- The parent-side part of `Cache.DeleteID` acting on the registry: find
the item, lock its parent (crash -- `none` -- when the parent pointer is
`nil`), remove the first occurrence of `id` from `parent.children` and
decrement `subdir` when the item is a directory.  The final
`metadata.Delete(id)` is applied by `Cache.DeleteID`; keeping this part
separate lets `MoveID` read the still-registered item value the Go
pointer refers to. -/
def deleteIDCore (m : Registry) (id : String) : Option Registry :=
  match Registry.load m id with
  | none => some m
  | some item =>
    match Registry.load m item.ParentID with
    | none => none
    | some _parent =>
      some (Registry.modifyAt m item.ParentID (unlinkChild id item.IsDir))

/-- `Cache.DeleteID`: unlink from the parent (crashing on a `nil` parent
when the item exists), then delete the registry entry. -/
def Cache.DeleteID (c : Cache) (id : String) : Option Cache :=
  (deleteIDCore c.metadata id).map (fun m =>
    { c with metadata := Registry.eraseKey m id })

/-- Replaces the first occurrence of `a` by `b`, as `MoveID`'s loop over
`parent.children` does. -/
def listReplaceFirst (a b : String) : List String → List String
  | [] => []
  | x :: xs => if x = a then b :: xs else x :: listReplaceFirst a b xs

/-- The in-place `parent.children[i] = newID` replacement loop of
`MoveID` (first occurrence of `oldID`). -/
def replaceChildRef (oldID newID : String) : DriveItem → DriveItem :=
  fun p => { p with children := p.children.map (listReplaceFirst oldID newID) }

/-- The `item.IDInternal = newID` overwrite of `MoveID`. -/
def setItemID (newID : String) : DriveItem → DriveItem :=
  fun it => { it with IDInternal := newID }

/-- `Cache.MoveID`: find the item under `oldID`, falling back to `newID`
(the rename may have happened already); error when neither exists.  Lock
the parent (crash on `nil`), replace `oldID` by `newID` in place in
`parent.children`, rewrite the item's `IDInternal`, then re-register via
`DeleteID(oldID)` followed by `InsertID(newID, item)`.  The value the Go
`item` pointer holds at the final `InsertID` is the registry value at the
found key after `deleteIDCore` (the entry erase does not touch the
object).  Result: `none` = crash, `some (some e, c)` = returned error,
`some (none, c)` = success. -/
def Cache.MoveID (c : Cache) (oldID newID : String) :
    Option (Option String × Cache) :=
  match (match Registry.load c.metadata oldID with
         | some it => some (oldID, it)
         | none => (Registry.load c.metadata newID).map (fun it => (newID, it))) with
  | none => some (some ("Could not get item: " ++ oldID), c)
  | some (key, item0) =>
    match Registry.load c.metadata item0.ParentID with
    | none => none
    | some _parent =>
      match deleteIDCore
        (Registry.modifyAt
          (Registry.modifyAt c.metadata item0.ParentID (replaceChildRef oldID newID))
          key (setItemID newID))
        oldID with
      | none => none
      | some m3 =>
        match Registry.load m3 key with
        | none => none
        | some itemV =>
          some (none,
            Cache.InsertID { c with metadata := Registry.eraseKey m3 oldID } newID itemV)

/-- `Cache.applyDelta`: skip when the record's parent is not cached;
apply `DeleteID` on a tombstone; otherwise a stub no-op. -/
def Cache.applyDelta (c : Cache) (rec : DriveItem) : Option Cache :=
  match Registry.load c.metadata rec.ParentID with
  | none => some c
  | some _ =>
    if rec.Deleted then Cache.DeleteID c rec.ID
    else some c

/-- The parsed body of one delta page (`deltaResponse` in Go). -/
structure deltaResponse where
  NextLink : String
  DeltaLink : String
  Values : List DriveItem
deriving DecidableEq, Repr

/-- `Cache.pollDeltas` on a successfully fetched and parsed page: apply
every record in order (a crash inside `applyDelta` propagates), then
either follow the next-page link (return `true` = keep polling) or store
the terminal delta link (return `false` = stop until the next interval).
Both links are stored with `graphURL` trimmed off.  The transport-error
branch returns before touching any state and is not modelled (the page
argument is the successful response). -/
def Cache.pollDeltas (c : Cache) (page : deltaResponse) :
    Option (Cache × Bool) :=
  match page.Values.foldlM Cache.applyDelta c with
  | none => none
  | some c1 =>
    if page.NextLink ≠ "" then
      some ({ c1 with deltaLink := goTrimPref page.NextLink graphURL }, true)
    else
      some ({ c1 with deltaLink := goTrimPref page.DeltaLink graphURL }, false)

/-- Builds the `map[string]*DriveItem` result of the populated branch of
`GetChildrenID`: look every child id up in the registry, silently
skipping dangling ids, keyed by lowercased name. -/
def childMapFromCache (m : Registry) (ids : List String) : Registry :=
  ids.foldl (fun acc cid =>
    match Registry.load m cid with
    | none => acc
    | some child => Registry.store acc (lowerStr child.Name) child) []

/-- One iteration of the fetch loop of `GetChildrenID`: store the fetched
child record, add it to the result map, append its id to the directory's
`children` and bump `subdir` for directory children (the directory is the
registry entry at `id`; mutation through the Go `item` pointer is
`modifyAt`). -/
def fetchStep (id : String) (acc : Registry × Registry) (child : DriveItem) :
    Registry × Registry :=
  let m1 := Registry.store acc.1 child.IDInternal child
  let res := Registry.store acc.2 (lowerStr child.Name) child
  let m2 := Registry.modifyAt m1 id (fun it =>
    { it with children := some ((it.children.getD []) ++ [child.IDInternal]),
              subdir := if child.IsDir then it.subdir + 1 else it.subdir })
  (m2, res)

/-- `Cache.GetChildrenID`: answer from the cache when the item's children
are already populated; otherwise fetch them from the remote (modelled by
the `remote` oracle) after checking credentials.  Returns
`(error?, result map, new cache, fetched?)` where `fetched?` records
whether a remote call was made. -/
def Cache.GetChildrenID (c : Cache) (id : String) (auth : Option String)
    (remote : String → List DriveItem) :
    Option String × Registry × Cache × Bool :=
  match Registry.load c.metadata id with
  | none => (some (id ++ " not found in cache"), [], c, false)
  | some item =>
    if !item.IsDir then (none, [], c, false)
    else
      match item.children with
      | some ids => (none, childMapFromCache c.metadata ids, c, false)
      | none =>
        if !(authOK auth) then
          (some ("Auth was nil/zero and children of \"" ++ item.Path ++
            "\" were not in cache. Could not fetch item as a result."), [], c, false)
        else
          let fetched := remote id
          let m0 := Registry.modifyAt c.metadata id
            (fun it => { it with children := some [] })
          let r := fetched.foldl (fetchStep id) (m0, [])
          (none, r.2, { c with metadata := r.1 }, true)

/-- The resolution loop of `Cache.Get`: walk the segments from `lastID`,
populating children along the way; `seen` accumulates the processed
segments for the error message.  Returns
`(error?, item?, new cache, number of remote fetches)`; the item is the
last resolved child (`none` when there was no segment). -/
def getLoop (auth : Option String) (remote : String → List DriveItem) :
    Cache → List String → String → Option DriveItem → List String →
    Option String × Option DriveItem × Cache × Nat
  | c, [], _, prev, _ => (none, prev, c, 0)
  | c, seg :: rest, lastID, _, seen =>
    let r := Cache.GetChildrenID c lastID auth remote
    let fn : Nat := if r.2.2.2 then 1 else 0
    match r.1 with
    | some e => (some e, none, r.2.2.1, fn)
    | none =>
      match Registry.load r.2.1 seg with
      | none =>
        (some (joinSlash (seen ++ [seg]) ++
          " does not exist on server or in local cache"), none, r.2.2.1, fn)
      | some item =>
        let rr := getLoop auth remote r.2.2.1 rest item.ID (some item) (seen ++ [seg])
        (rr.1, rr.2.1, rr.2.2.1, fn + rr.2.2.2)

/-- `Cache.Get`: resolve a path from the root, fetching missing children
on demand.  `"/"` returns the root entry directly; otherwise the path is
lowercased, one trailing slash is trimmed, and the loop walks the
segments after the leading empty one. -/
def Cache.Get (c : Cache) (path : String) (auth : Option String)
    (remote : String → List DriveItem) :
    Option String × Option DriveItem × Cache × Nat :=
  let lastID := c.root
  if path = "/" then (none, Registry.load c.metadata lastID, c, 0)
  else
    let path2 := goTrimSuffixSlash (lowerStr path)
    let split := (goSplitSlash path2).drop 1
    getLoop auth remote c split lastID none []

/-- `Cache.Delete`: resolve the (lowercased) path with a `nil` auth --
remote calls are NOT permitted, errors are discarded -- and delete the
resolved item by id when one was found.  The `DeleteID` crash
propagates. -/
def Cache.Delete (c : Cache) (key : String)
    (remote : String → List DriveItem) : Option Cache :=
  let r := Cache.Get c (lowerStr key) none remote
  match r.2.1 with
  | some item => Cache.DeleteID r.2.2.1 item.ID
  | none => some r.2.2.1

/-- Models Go `filepath.Base` for the slash-separated paths the cache
uses (`filepath` is the standard library, not part of this repository):
last nonempty segment, `"/"` for the root path, `"."` for an empty
path. -/
def goBase (p : String) : String :=
  if p = "" then "."
  else
    match ((goSplitSlash p).filter (fun s => s ≠ "")).getLast? with
    | some s => s
    | none => "/"

/-- Models Go `filepath.Dir` for clean absolute slash-separated paths
(standard library, not part of this repository): everything before the
last segment, `"/"` when at most one segment remains, `"."` for an empty
path. -/
def goDir (p : String) : String :=
  if p = "" then "."
  else
    let parts := (goSplitSlash p).filter (fun s => s ≠ "")
    if parts.length ≤ 1 then "/"
    else "/" ++ joinSlash parts.dropLast

/-- `Cache.Insert`: resolve the parent directory of the (lowercased)
path, write the parent's id into `item.Parent.ID` under the item's lock,
then delegate to `InsertID` under `item.ID()`.  Returns
`(error?, new cache)`. -/
def Cache.Insert (c : Cache) (key : String) (auth : Option String)
    (item : DriveItem) (remote : String → List DriveItem) :
    Option String × Cache :=
  let key2 := lowerStr key
  let r := Cache.Get c (goDir key2) auth remote
  match r.1 with
  | some e => (some e, r.2.2.1)
  | none =>
    match r.2.1 with
    | none => (some "Parent of key was nil! Did we accidentally use an ID for the key?",
               r.2.2.1)
    | some parent =>
      let item2 := { item with Parent := ⟨parent.IDInternal⟩ }
      (none, Cache.InsertID r.2.2.1 item2.ID item2)

/-- `Cache.Move`: resolve the old path (with credentials), `Delete` the
old path (which internally resolves with `nil` credentials), rename when
the basenames differ, and `Insert` at the new path; on insert failure,
best-effort rollback re-inserts under the old basename at the old path
and returns the original error.  The Go `item` pointer keeps its value
across `Delete` (which mutates only the parent and the registry), so the
resolved value is carried.  `none` models the crashes reachable through
a `nil` resolved item or `DeleteID`'s `nil` parent. -/
def Cache.Move (c : Cache) (oldPath newPath : String) (auth : Option String)
    (remote : String → List DriveItem) : Option (Option String × Cache) :=
  let r := Cache.Get c oldPath auth remote
  match r.1 with
  | some e => some (some e, r.2.2.1)
  | none =>
    match r.2.1 with
    | none =>
      match Cache.Delete r.2.2.1 oldPath remote with
      | none => none
      | some c2 =>
        if goBase oldPath ≠ goBase newPath then none
        else
          let r2 := Cache.Get c2 (goDir (lowerStr newPath)) auth remote
          match r2.1 with
          | some e => some (some e, r2.2.2.1)
          | none =>
            match r2.2.1 with
            | none => some (some "Parent of key was nil! Did we accidentally use an ID for the key?",
                            r2.2.2.1)
            | some _ => none
    | some item =>
      match Cache.Delete r.2.2.1 oldPath remote with
      | none => none
      | some c2 =>
        let item1 := if goBase oldPath ≠ goBase newPath then
            item.SetName (goBase newPath) else item
        let r3 := Cache.Insert c2 newPath auth item1 remote
        match r3.1 with
        | none => some (none, r3.2)
        | some e =>
          let item2 := item1.SetName (goBase oldPath)
          let r4 := Cache.Insert r3.2 oldPath auth item2 remote
          some (some e, r4.2)

/-- The child-id list of an item as the Go loops see it (`range` over a
`nil` slice is empty). -/
def childList (it : DriveItem) : List String := it.children.getD []

/-- The registry key of the parent an id resolves to, if it resolves. -/
def parentKeyOf (m : Registry) (cid : String) : Option String :=
  (Registry.load m cid).map (fun ch => ch.Parent.ID)

/-- Whether an id resolves to a directory item (dangling ids do not). -/
def dirAt (m : Registry) (cid : String) : Bool :=
  match Registry.load m cid with
  | some ch => ch.IsDir
  | none => false

/-- The number of ids in a child list that resolve to directory items:
the value `subdir` denormalizes (spec invariant I5). -/
def subdirCount (m : Registry) (l : List String) : Nat :=
  (l.filter (fun cid => dirAt m cid)).length

instance decidableAllLoad (m : Registry) (k : String) (P : DriveItem → Prop)
    [DecidablePred P] :
    Decidable (∀ it, Registry.load m k = some it → P it) :=
  match Registry.load m k with
  | none => isTrue (fun _ hit => by cases hit)
  | some it =>
    if hp : P it then
      isTrue (fun it' hit' => by cases hit'; exact hp)
    else isFalse (fun hall => hp (hall it rfl))

/-- The structural well-formedness of the registry that the tree
maintainer relies on: unique keys, every item registered under its own
`IDInternal`, every listed child id resolving to an item whose
`Parent.ID` is the container's key (spec invariant I2 plus exclusivity;
in particular no dangling child ids), no duplicate children (I3), and
`subdir` accuracy (I5, with `subdir = 0` for unpopulated lists). -/
structure CacheInv (m : Registry) : Prop where
  nodupKeys : (Registry.keys m).Nodup
  keyCons : ∀ k ∈ Registry.keys m, ∀ it, Registry.load m k = some it →
    it.IDInternal = k
  linked : ∀ k ∈ Registry.keys m, ∀ it, Registry.load m k = some it →
    ∀ cid ∈ childList it, parentKeyOf m cid = some k
  childNodup : ∀ k ∈ Registry.keys m, ∀ it, Registry.load m k = some it →
    (childList it).Nodup
  subdirAcc : ∀ k ∈ Registry.keys m, ∀ it, Registry.load m k = some it →
    it.subdir = subdirCount m (childList it)
  noSelf : ∀ k ∈ Registry.keys m, ∀ it, Registry.load m k = some it →
    it.Parent.ID ≠ k

namespace CacheInv

theorem keyCons' {m : Registry} (h : CacheInv m) {k : String} {it : DriveItem}
    (hl : Registry.load m k = some it) : it.IDInternal = k :=
  h.keyCons k (Registry.load_isSome_iff_mem_keys.1 (by simp [hl])) it hl

theorem linked' {m : Registry} (h : CacheInv m) {k : String} {it : DriveItem}
    (hl : Registry.load m k = some it) {cid : String} (hc : cid ∈ childList it) :
    parentKeyOf m cid = some k :=
  h.linked k (Registry.load_isSome_iff_mem_keys.1 (by simp [hl])) it hl cid hc

theorem childNodup' {m : Registry} (h : CacheInv m) {k : String} {it : DriveItem}
    (hl : Registry.load m k = some it) : (childList it).Nodup :=
  h.childNodup k (Registry.load_isSome_iff_mem_keys.1 (by simp [hl])) it hl

theorem subdirAcc' {m : Registry} (h : CacheInv m) {k : String} {it : DriveItem}
    (hl : Registry.load m k = some it) :
    it.subdir = subdirCount m (childList it) :=
  h.subdirAcc k (Registry.load_isSome_iff_mem_keys.1 (by simp [hl])) it hl

theorem noSelf' {m : Registry} (h : CacheInv m) {k : String} {it : DriveItem}
    (hl : Registry.load m k = some it) : it.Parent.ID ≠ k :=
  h.noSelf k (Registry.load_isSome_iff_mem_keys.1 (by simp [hl])) it hl

end CacheInv

/-- One operation of the tree maintainer / children provider, as claimed
over operation sequences.  A `getChildrenID` op carries the records the
remote would return for its id (the oracle answer). -/
inductive Op where
  | insertID (id : String) (item : DriveItem)
  | deleteID (id : String)
  | moveID (a b : String)
  | getChildrenID (id : String) (auth : Option String) (fetched : List DriveItem)
deriving DecidableEq, Repr

/-- Applies one operation, `none` on crash. -/
def applyOp (c : Cache) : Op → Option Cache
  | .insertID id item => some (Cache.InsertID c id item)
  | .deleteID id => Cache.DeleteID c id
  | .moveID a b => (Cache.MoveID c a b).map (fun r => r.2)
  | .getChildrenID id auth fetched =>
    some (Cache.GetChildrenID c id auth (fun _ => fetched)).2.2.1

/-- Well-formed arguments for one operation in a given state: inserted
items are fresh, self-consistent (`IDInternal` equal to the key) and
newly created (unpopulated, `subdir = 0`); `MoveID` targets a fresh id
(the Go comment assumes ids never collide); fetched child records carry
distinct fresh ids, their parent reference, and newborn fields. -/
def WfOp (c : Cache) : Op → Prop
  | .insertID id item =>
    item.IDInternal = id ∧ Registry.load c.metadata id = none ∧
    item.children = none ∧ item.subdir = 0 ∧
    id ≠ "" ∧ item.Parent.ID ≠ id
  | .deleteID _ => True
  | .moveID a b => Registry.load c.metadata b = none ∧
    ∀ it, Registry.load c.metadata a = some it → childList it = []
  | .getChildrenID id _ fetched =>
    (fetched.map (fun ch => ch.IDInternal)).Nodup ∧
    ∀ ch ∈ fetched, ch.Parent.ID = id ∧ ch.children = none ∧ ch.subdir = 0 ∧
      ch.IDInternal ≠ id ∧ Registry.load c.metadata ch.IDInternal = none

instance (c : Cache) (op : Op) : Decidable (WfOp c op) := by
  cases op <;> simp only [WfOp] <;> infer_instance

/-- One well-formed, non-crashing step. -/
def stepOp (c : Cache) (op : Op) : Option Cache :=
  if WfOp c op then applyOp c op else none

/-- Runs a sequence of operations; `none` when some step is ill-formed
or crashes. -/
def runOps : Cache → List Op → Option Cache
  | c, [] => some c
  | c, op :: ops =>
    match stepOp c op with
    | none => none
    | some c' => runOps c' ops

theorem parentKeyOf_congr {m m' : Registry} {cid : String}
    (h : Registry.load m' cid = Registry.load m cid) :
    parentKeyOf m' cid = parentKeyOf m cid := by
  simp [parentKeyOf, h]

theorem dirAt_congr {m m' : Registry} {cid : String}
    (h : Registry.load m' cid = Registry.load m cid) :
    dirAt m' cid = dirAt m cid := by
  simp [dirAt, h]

theorem subdirCount_congr {m m' : Registry} {l : List String}
    (h : ∀ cid ∈ l, dirAt m' cid = dirAt m cid) :
    subdirCount m' l = subdirCount m l := by
  unfold subdirCount
  rw [List.filter_congr h]

theorem resolves_of_parentKeyOf {m : Registry} {cid k : String}
    (h : parentKeyOf m cid = some k) : ∃ ch, Registry.load m cid = some ch := by
  unfold parentKeyOf at h
  cases hl : Registry.load m cid with
  | none => rw [hl] at h; cases h
  | some ch => exact ⟨ch, rfl⟩

/-- Registering a fresh newborn item (no linking) preserves the
invariant. -/
theorem inv_store_fresh {m : Registry} {id : String} {item : DriveItem}
    (hInv : CacheInv m) (hid : item.IDInternal = id)
    (hfresh : Registry.load m id = none)
    (hch : item.children = none) (hsd : item.subdir = 0)
    (hnp : item.Parent.ID ≠ id) :
    CacheInv (Registry.store m id item) := by
  have hload : ∀ k, Registry.load (Registry.store m id item) k =
      if k = id then some item else Registry.load m k := by
    intro k
    by_cases hk : k = id
    · subst hk; simp [Registry.load_store_self]
    · simp [Registry.load_store_other m id k item hk, hk]
  have hres_ne : ∀ cid k, parentKeyOf m cid = some k → cid ≠ id := by
    intro cid k h
    obtain ⟨ch, hch2⟩ := resolves_of_parentKeyOf h
    intro hcid
    rw [hcid, hfresh] at hch2
    cases hch2
  refine ⟨Registry.nodup_keys_store hInv.nodupKeys, ?_, ?_, ?_, ?_, ?_⟩
  · intro k _ it hl
    rw [hload] at hl
    by_cases hk : k = id
    · rw [if_pos hk] at hl
      cases hl
      rw [hid, hk]
    · rw [if_neg hk] at hl
      exact hInv.keyCons' hl
  · intro k _ it hl cid hc
    rw [hload] at hl
    by_cases hk : k = id
    · rw [if_pos hk] at hl
      cases hl
      simp [childList, hch] at hc
    · rw [if_neg hk] at hl
      have hold := hInv.linked' hl hc
      have hne := hres_ne cid k hold
      rw [parentKeyOf_congr (Registry.load_store_other m id cid item hne)]
      exact hold
  · intro k _ it hl
    rw [hload] at hl
    by_cases hk : k = id
    · rw [if_pos hk] at hl
      cases hl
      simp [childList, hch]
    · rw [if_neg hk] at hl
      exact hInv.childNodup' hl
  · intro k _ it hl
    rw [hload] at hl
    by_cases hk : k = id
    · rw [if_pos hk] at hl
      cases hl
      simp [childList, hch, subdirCount, hsd]
    · rw [if_neg hk] at hl
      rw [hInv.subdirAcc' hl]
      refine (subdirCount_congr ?_).symm
      intro cid hc
      have hold := hInv.linked' hl hc
      have hne := hres_ne cid k hold
      exact dirAt_congr (Registry.load_store_other m id cid item hne)
  · intro k _ it hl
    rw [hload] at hl
    by_cases hk : k = id
    · rw [if_pos hk] at hl
      cases hl
      rw [hk]
      exact hnp
    · rw [if_neg hk] at hl
      exact hInv.noSelf' hl

/-- The `parent.subdir++` of `InsertID`'s linking branch. -/
def bumpSubdir : DriveItem → DriveItem :=
  fun p => { p with subdir := p.subdir + 1 }

/-- The `parent.children = append(parent.children, item.IDInternal)` of
`InsertID`'s linking branch. -/
def appendChild (newid : String) : DriveItem → DriveItem :=
  fun p => { p with children := some ((p.children.getD []) ++ [newid]) }

/-- The `item.Parent.ID = parent.IDInternal` of `InsertID`'s linking
branch. -/
def setParentTo (pid : String) : DriveItem → DriveItem :=
  fun it => { it with Parent := ⟨pid⟩ }

theorem insertID_root_metadata {c : Cache} {id : String} {item : DriveItem}
    (h : item.ParentID = "") :
    (Cache.InsertID c id item).metadata = Registry.store c.metadata id item := by
  unfold Cache.InsertID
  rw [if_pos h]

theorem insertID_orphan_metadata {c : Cache} {id : String} {item : DriveItem}
    (h1 : item.ParentID ≠ "")
    (h2 : Registry.load (Registry.store c.metadata id item) item.ParentID = none) :
    (Cache.InsertID c id item).metadata = Registry.store c.metadata id item := by
  unfold Cache.InsertID
  rw [if_neg h1]
  split
  · rfl
  · next parent' heq =>
    rw [h2] at heq
    cases heq

theorem insertID_dup_metadata {c : Cache} {id : String} {item parent : DriveItem}
    (h1 : item.ParentID ≠ "")
    (h2 : Registry.load (Registry.store c.metadata id item) item.ParentID = some parent)
    (h3 : (parent.children.getD []).contains id = true) :
    (Cache.InsertID c id item).metadata = Registry.store c.metadata id item := by
  unfold Cache.InsertID
  rw [if_neg h1]
  split
  · rfl
  · next parent' heq =>
    rw [h2] at heq
    injection heq with h
    subst h
    rw [if_pos h3]

/-- The linking branch of `InsertID` written out: the conditional `subdir`
bump, the `children` append and the `Parent.ID` rewrite, in order. -/
theorem insertID_link_metadata {c : Cache} {id : String} {item parent : DriveItem}
    (h1 : item.ParentID ≠ "")
    (h2 : Registry.load (Registry.store c.metadata id item) item.ParentID = some parent)
    (h3 : (parent.children.getD []).contains id = false) :
    (Cache.InsertID c id item).metadata =
      Registry.modifyAt (Registry.modifyAt
        (if item.IsDir then
          Registry.modifyAt (Registry.store c.metadata id item) item.ParentID bumpSubdir
        else Registry.store c.metadata id item)
        item.ParentID (appendChild item.IDInternal))
        id (setParentTo parent.IDInternal) := by
  unfold Cache.InsertID
  rw [if_neg h1]
  split
  · next heq =>
    rw [h2] at heq
    cases heq
  · next parent' heq =>
    rw [h2] at heq
    injection heq with h
    subst h
    rw [if_neg (by rw [h3]; exact Bool.false_ne_true)]
    rfl

theorem insertID_link_load {c : Cache} {id : String} {item parent : DriveItem}
    (h1 : item.ParentID ≠ "") (hpi : item.ParentID ≠ id)
    (h2 : Registry.load c.metadata item.ParentID = some parent)
    (h3 : (parent.children.getD []).contains id = false) :
    ∀ k, Registry.load (Cache.InsertID c id item).metadata k =
      if k = id then some { item with Parent := ⟨parent.IDInternal⟩ }
      else if k = item.ParentID then
        some { parent with
          children := some ((parent.children.getD []) ++ [item.IDInternal]),
          subdir := if item.IsDir then parent.subdir + 1 else parent.subdir }
      else Registry.load c.metadata k := by
  intro k
  have hm1 : Registry.load (Registry.store c.metadata id item) item.ParentID =
      some parent := by
    rw [Registry.load_store_other _ _ _ _ hpi]
    exact h2
  rw [insertID_link_metadata h1 hm1 h3]
  by_cases hk : k = id
  · subst hk
    rw [if_pos rfl, Registry.load_modifyAt_self,
      Registry.load_modifyAt_other _ _ _ _ (Ne.symm hpi)]
    by_cases hdir : item.IsDir
    · rw [if_pos hdir, Registry.load_modifyAt_other _ _ _ _ (Ne.symm hpi),
        Registry.load_store_self]
      rfl
    · rw [if_neg hdir, Registry.load_store_self]
      rfl
  · rw [if_neg hk]
    by_cases hp : k = item.ParentID
    · subst hp
      rw [if_pos rfl, Registry.load_modifyAt_other _ _ _ _ hpi,
        Registry.load_modifyAt_self]
      by_cases hdir : item.IsDir
      · rw [if_pos hdir, Registry.load_modifyAt_self, hm1]
        simp [appendChild, bumpSubdir, hdir]
      · rw [if_neg hdir, hm1]
        simp [appendChild, hdir]
    · rw [if_neg hp, Registry.load_modifyAt_other _ _ _ _ hk,
        Registry.load_modifyAt_other _ _ _ _ hp]
      by_cases hdir : item.IsDir
      · rw [if_pos hdir, Registry.load_modifyAt_other _ _ _ _ hp,
          Registry.load_store_other _ _ _ _ hk]
      · rw [if_neg hdir, Registry.load_store_other _ _ _ _ hk]

/-- Inserting an item that names itself as parent (`Parent.ID = id`)
self-links: the freshly stored entry at `id` is its own parent. -/
theorem insertID_self_load {c : Cache} {id : String} {item : DriveItem}
    (h1 : item.ParentID = id) (hne : id ≠ "")
    (hch : item.children = none) :
    ∀ k, Registry.load (Cache.InsertID c id item).metadata k =
      if k = id then
        some { item with
          Parent := ⟨item.IDInternal⟩,
          children := some [item.IDInternal],
          subdir := if item.IsDir then item.subdir + 1 else item.subdir }
      else Registry.load c.metadata k := by
  intro k
  have hm1 : Registry.load (Registry.store c.metadata id item) item.ParentID =
      some item := by
    rw [h1, Registry.load_store_self]
  have h3 : (item.children.getD []).contains id = false := by
    simp [hch]
  rw [insertID_link_metadata (by rw [h1]; exact hne) hm1 h3]
  by_cases hk : k = id
  · subst hk
    rw [if_pos rfl, Registry.load_modifyAt_self, h1, Registry.load_modifyAt_self]
    by_cases hdir : item.IsDir
    · rw [if_pos hdir, Registry.load_modifyAt_self, Registry.load_store_self]
      simp [bumpSubdir, appendChild, setParentTo, hdir, hch]
    · rw [if_neg hdir, Registry.load_store_self]
      simp [appendChild, setParentTo, hdir, hch]
  · rw [if_neg hk, Registry.load_modifyAt_other _ _ _ _ hk, h1,
      Registry.load_modifyAt_other _ _ _ _ hk]
    by_cases hdir : item.IsDir
    · rw [if_pos hdir, Registry.load_modifyAt_other _ _ _ _ hk,
        Registry.load_store_other _ _ _ _ hk]
    · rw [if_neg hdir, Registry.load_store_other _ _ _ _ hk]

theorem insertID_keys {c : Cache} {id : String} {item : DriveItem} :
    Registry.keys (Cache.InsertID c id item).metadata =
      Registry.keys (Registry.store c.metadata id item) := by
  unfold Cache.InsertID
  by_cases h1 : item.ParentID = ""
  · rw [if_pos h1]
  · rw [if_neg h1]
    split
    · rfl
    · next parent' heq =>
      split
      · rfl
      · simp only [Registry.keys_modifyAt]
        split <;> simp only [Registry.keys_modifyAt]

theorem linked_load {m : Registry} (hInv : CacheInv m) {k cid : String}
    {it : DriveItem} (hl : Registry.load m k = some it)
    (hc : cid ∈ childList it) :
    ∃ ch, Registry.load m cid = some ch ∧ ch.Parent.ID = k := by
  have h := hInv.linked' hl hc
  unfold parentKeyOf at h
  cases hcl : Registry.load m cid with
  | none => rw [hcl] at h; cases h
  | some ch =>
    rw [hcl] at h
    exact ⟨ch, rfl, by injection h⟩

theorem child_ne_fresh {m : Registry} (hInv : CacheInv m) {k cid id : String}
    {it : DriveItem} (hl : Registry.load m k = some it)
    (hc : cid ∈ childList it) (hfresh : Registry.load m id = none) :
    cid ≠ id := by
  obtain ⟨ch, hch, -⟩ := linked_load hInv hl hc
  intro hcid
  rw [hcid, hfresh] at hch
  cases hch

/-- `InsertID` with well-formed arguments (fresh consistent id, newborn
item) preserves the registry invariant. -/
theorem inv_insertID {c : Cache} {id : String} {item : DriveItem}
    (hInv : CacheInv c.metadata) (hid : item.IDInternal = id)
    (hfresh : Registry.load c.metadata id = none)
    (hch : item.children = none) (hsd : item.subdir = 0)
    (hne0 : id ≠ "") (hnp : item.Parent.ID ≠ id) :
    CacheInv (Cache.InsertID c id item).metadata := by
  have hnodup : (Registry.keys (Cache.InsertID c id item).metadata).Nodup := by
    rw [insertID_keys]
    exact Registry.nodup_keys_store hInv.nodupKeys
  by_cases hpe : item.ParentID = ""
  · rw [insertID_root_metadata hpe]
    exact inv_store_fresh hInv hid hfresh hch hsd hnp
  · by_cases hpi : item.ParentID = id
    · exact absurd hpi hnp
    · -- distinct parent key
      cases hpar : Registry.load c.metadata item.ParentID with
      | none =>
        rw [insertID_orphan_metadata hpe
          (by rw [Registry.load_store_other _ _ _ _ hpi]; exact hpar)]
        exact inv_store_fresh hInv hid hfresh hch hsd hnp
      | some parent =>
        by_cases hcont : (parent.children.getD []).contains id = true
        · exfalso
          have hmem : id ∈ childList parent := by
            simpa [childList] using hcont
          have hne := child_ne_fresh hInv hpar hmem hfresh
          exact hne rfl
        · have hcont' : (parent.children.getD []).contains id = false := by
            cases hc2 : (parent.children.getD []).contains id
            · rfl
            · exact absurd hc2 hcont
          have hload := insertID_link_load hpe hpi hpar hcont'
          have hpidkey : parent.IDInternal = item.ParentID := hInv.keyCons' hpar
          have hid_notmem : id ∉ childList parent := by
            simpa [childList] using hcont'
          -- resolution of ids other than the fresh one is unchanged
          have hother : ∀ cid : String, cid ≠ id →
              Registry.load (Cache.InsertID c id item).metadata cid =
                if cid = item.ParentID then
                  some { parent with
                    children := some ((parent.children.getD []) ++ [item.IDInternal]),
                    subdir := if item.IsDir then parent.subdir + 1 else parent.subdir }
                else Registry.load c.metadata cid := by
            intro cid hcid
            rw [hload, if_neg hcid]
          have hpk : ∀ cid : String, cid ≠ id →
              parentKeyOf (Cache.InsertID c id item).metadata cid =
                parentKeyOf c.metadata cid := by
            intro cid hcid
            unfold parentKeyOf
            rw [hother cid hcid]
            by_cases hcp : cid = item.ParentID
            · rw [if_pos hcp, hcp, hpar]
              rfl
            · rw [if_neg hcp]
          have hdirother : ∀ cid : String, cid ≠ id →
              dirAt (Cache.InsertID c id item).metadata cid =
                dirAt c.metadata cid := by
            intro cid hcid
            unfold dirAt
            rw [hother cid hcid]
            by_cases hcp : cid = item.ParentID
            · rw [if_pos hcp, hcp, hpar]
              rfl
            · rw [if_neg hcp]
          refine ⟨hnodup, ?_, ?_, ?_, ?_, ?_⟩
          · intro k _ it hl
            rw [hload] at hl
            by_cases hk : k = id
            · rw [if_pos hk] at hl
              cases hl
              rw [hid, hk]
            · rw [if_neg hk] at hl
              by_cases hp : k = item.ParentID
              · rw [if_pos hp] at hl
                cases hl
                exact hpidkey.trans hp.symm
              · rw [if_neg hp] at hl
                exact hInv.keyCons' hl
          · intro k _ it hl cid hc
            rw [hload] at hl
            by_cases hk : k = id
            · rw [if_pos hk] at hl
              cases hl
              simp [childList, hch] at hc
            · rw [if_neg hk] at hl
              by_cases hp : k = item.ParentID
              · rw [if_pos hp] at hl
                cases hl
                simp only [childList, Option.getD_some] at hc
                rcases List.mem_append.1 hc with hc1 | hc2
                · have hold := hInv.linked' hpar hc1
                  have hne := child_ne_fresh hInv hpar hc1 hfresh
                  rw [hpk cid hne, hp]
                  exact hold
                · simp only [List.mem_singleton] at hc2
                  subst hc2
                  unfold parentKeyOf
                  rw [hload, if_pos hid]
                  simp [hp, hpidkey]
              · rw [if_neg hp] at hl
                have hold := hInv.linked' hl hc
                have hne := child_ne_fresh hInv hl hc hfresh
                rw [hpk cid hne]
                exact hold
          · intro k _ it hl
            rw [hload] at hl
            by_cases hk : k = id
            · rw [if_pos hk] at hl
              cases hl
              simp [childList, hch]
            · rw [if_neg hk] at hl
              by_cases hp : k = item.ParentID
              · rw [if_pos hp] at hl
                cases hl
                simp only [childList, Option.getD_some]
                rw [List.nodup_append]
                refine ⟨hInv.childNodup' hpar, List.nodup_singleton _, ?_⟩
                intro a ha hb
                simp only [List.mem_singleton] at hb
                subst hb
                rw [hid] at ha
                exact hid_notmem ha
              · rw [if_neg hp] at hl
                exact hInv.childNodup' hl
          · intro k _ it hl
            rw [hload] at hl
            by_cases hk : k = id
            · rw [if_pos hk] at hl
              cases hl
              simp only [childList, hch, Option.getD_none]
              simpa [subdirCount] using hsd
            · rw [if_neg hk] at hl
              by_cases hp : k = item.ParentID
              · rw [if_pos hp] at hl
                cases hl
                simp only [childList, Option.getD_some]
                unfold subdirCount
                rw [List.filter_append]
                have hcount : (List.filter (fun cid =>
                    dirAt (Cache.InsertID c id item).metadata cid)
                    (parent.children.getD [])).length =
                    (List.filter (fun cid => dirAt c.metadata cid)
                    (parent.children.getD [])).length := by
                  rw [List.filter_congr]
                  intro cid hcmem
                  exact hdirother cid (child_ne_fresh hInv hpar hcmem hfresh)
                have hdid : dirAt (Cache.InsertID c id item).metadata item.IDInternal
                    = item.IsDir := by
                  unfold dirAt
                  rw [hload, if_pos hid]
                  rfl
                rw [List.length_append, hcount]
                have hacc := hInv.subdirAcc' hpar
                unfold subdirCount at hacc
                rw [childList] at hacc
                rw [← hacc]
                by_cases hdir : item.IsDir <;>
                  simp [hdir, hdid, List.filter]
              · rw [if_neg hp] at hl
                rw [hInv.subdirAcc' hl]
                refine (subdirCount_congr ?_).symm
                intro cid hc
                exact hdirother cid (child_ne_fresh hInv hl hc hfresh)
          · intro k _ it hl
            rw [hload] at hl
            by_cases hk : k = id
            · rw [if_pos hk] at hl
              cases hl
              show parent.IDInternal ≠ k
              rw [hk, hpidkey]
              exact hpi
            · rw [if_neg hk] at hl
              by_cases hp : k = item.ParentID
              · rw [if_pos hp] at hl
                cases hl
                show parent.Parent.ID ≠ k
                rw [hp]
                exact hInv.noSelf' hpar
              · rw [if_neg hp] at hl
                exact hInv.noSelf' hl

theorem deleteID_eq_absent {c : Cache} {id : String}
    (h : Registry.load c.metadata id = none) :
    Cache.DeleteID c id =
      some { c with metadata := Registry.eraseKey c.metadata id } := by
  unfold Cache.DeleteID deleteIDCore
  split
  · rfl
  · next item heq =>
    rw [h] at heq
    cases heq

theorem deleteID_eq_crash {c : Cache} {id : String} {item : DriveItem}
    (hit : Registry.load c.metadata id = some item)
    (hpar : Registry.load c.metadata item.ParentID = none) :
    Cache.DeleteID c id = none := by
  unfold Cache.DeleteID deleteIDCore
  split
  · next heq =>
    rw [hit] at heq
    cases heq
  · next item' heq =>
    rw [hit] at heq
    injection heq with h
    subst h
    split
    · rfl
    · next parent heq2 =>
      rw [hpar] at heq2
      cases heq2

theorem deleteID_eq_found {c : Cache} {id : String} {item parent : DriveItem}
    (hit : Registry.load c.metadata id = some item)
    (hpar : Registry.load c.metadata item.ParentID = some parent) :
    Cache.DeleteID c id = some { c with metadata :=
      (Registry.eraseKey (Registry.modifyAt c.metadata item.ParentID
        (unlinkChild id item.IsDir)) id) } := by
  unfold Cache.DeleteID deleteIDCore
  split
  · next heq =>
    rw [hit] at heq
    cases heq
  · next item' heq =>
    rw [hit] at heq
    injection heq with h
    subst h
    split
    · next heq2 =>
      rw [hpar] at heq2
      cases heq2
    · rfl

/-- Erasing an id that no surviving entry lists preserves the invariant,
stated pointwise so that it covers both the plain-erase and the
modify-then-erase shapes of `DeleteID`. -/
theorem inv_erase_pointwise {m mfin : Registry} {id : String}
    (hInv : CacheInv m)
    (hkeys : (Registry.keys mfin).Nodup)
    (hload : ∀ k, Registry.load mfin k =
      if k = id then none else Registry.load m k)
    (hnl : ∀ k it, k ≠ id → Registry.load m k = some it → id ∉ childList it) :
    CacheInv mfin := by
  refine ⟨hkeys, ?_, ?_, ?_, ?_, ?_⟩
  · intro k _ it hl
    rw [hload] at hl
    by_cases hk : k = id
    · rw [if_pos hk] at hl; cases hl
    · rw [if_neg hk] at hl
      exact hInv.keyCons' hl
  · intro k _ it hl cid hc
    rw [hload] at hl
    by_cases hk : k = id
    · rw [if_pos hk] at hl; cases hl
    · rw [if_neg hk] at hl
      have hold := hInv.linked' hl hc
      have hcne : cid ≠ id := by
        intro hcid
        exact (hnl k it hk hl) (hcid ▸ hc)
      have hcongr : Registry.load mfin cid = Registry.load m cid := by
        rw [hload, if_neg hcne]
      rw [parentKeyOf_congr hcongr]
      exact hold
  · intro k _ it hl
    rw [hload] at hl
    by_cases hk : k = id
    · rw [if_pos hk] at hl; cases hl
    · rw [if_neg hk] at hl
      exact hInv.childNodup' hl
  · intro k _ it hl
    rw [hload] at hl
    by_cases hk : k = id
    · rw [if_pos hk] at hl; cases hl
    · rw [if_neg hk] at hl
      rw [hInv.subdirAcc' hl]
      refine (subdirCount_congr ?_).symm
      intro cid hc
      have hcne : cid ≠ id := by
        intro hcid
        exact (hnl k it hk hl) (hcid ▸ hc)
      have hcongr : Registry.load mfin cid = Registry.load m cid := by
        rw [hload, if_neg hcne]
      exact dirAt_congr hcongr
  · intro k _ it hl
    rw [hload] at hl
    by_cases hk : k = id
    · rw [if_pos hk] at hl; cases hl
    · rw [if_neg hk] at hl
      exact hInv.noSelf' hl

/-- Under the invariant, a registered id occurs in no child list other
than its own parent's. -/
theorem listed_only_in_parent {m : Registry} (hInv : CacheInv m)
    {id k : String} {item it : DriveItem}
    (hit : Registry.load m id = some item)
    (hl : Registry.load m k = some it) (hmem : id ∈ childList it) :
    k = item.ParentID := by
  obtain ⟨ch, hch, hpk⟩ := linked_load hInv hl hmem
  rw [hit] at hch
  injection hch with h
  subst h
  exact hpk.symm

/-- `DeleteID`, when it returns, preserves the registry invariant. -/
theorem inv_deleteID {c c' : Cache} {id : String}
    (hInv : CacheInv c.metadata) (h : Cache.DeleteID c id = some c') :
    CacheInv c'.metadata := by
  cases hit : Registry.load c.metadata id with
  | none =>
    rw [deleteID_eq_absent hit] at h
    injection h with h
    subst h
    refine @inv_erase_pointwise c.metadata _ id hInv
      (Registry.nodup_keys_eraseKey hInv.nodupKeys) ?_ ?_
    · intro k
      by_cases hk : k = id
      · subst hk
        simp [Registry.load_eraseKey_self]
      · simp [Registry.load_eraseKey_other _ _ _ hk, hk]
    · intro k it _ hl hmem
      obtain ⟨ch, hch, -⟩ := linked_load hInv hl hmem
      rw [hit] at hch
      cases hch
  | some item =>
    cases hpar : Registry.load c.metadata item.ParentID with
    | none =>
      rw [deleteID_eq_crash hit hpar] at h
      cases h
    | some parent =>
      rw [deleteID_eq_found hit hpar] at h
      injection h with h
      subst h
      have hnodupF : (Registry.keys (Registry.eraseKey
          (Registry.modifyAt c.metadata item.ParentID
            (unlinkChild id item.IsDir)) id)).Nodup :=
        Registry.nodup_keys_eraseKey
          (Registry.nodup_keys_modifyAt hInv.nodupKeys)
      by_cases hcont : (parent.children.getD []).contains id = true
      · by_cases hpid : item.ParentID = id
        · -- self-parenting entry: the modify is swallowed by the erase
          have hpi : parent = item := by
            rw [hpid, hit] at hpar
            injection hpar with h2
            exact h2.symm
          refine @inv_erase_pointwise c.metadata _ id hInv hnodupF ?_ ?_
          · intro k
            by_cases hk : k = id
            · subst hk
              simp [Registry.load_eraseKey_self]
            · rw [Registry.load_eraseKey_other _ _ _ hk, if_neg hk,
                Registry.load_modifyAt_other _ _ _ _ (by rw [hpid]; exact hk)]
          · intro k it' hk hl hmem
            have := listed_only_in_parent hInv hit hl hmem
            rw [hpid] at this
            exact hk this
        · -- the genuine unlink: parent loses `id`, subdir is adjusted
          have hmemP : id ∈ childList parent := by
            simpa [childList] using hcont
          have hnodupP := hInv.childNodup' hpar
          have huval : unlinkChild id item.IsDir parent =
              { parent with
                children := some ((parent.children.getD []).erase id),
                subdir := if item.IsDir then parent.subdir - 1 else parent.subdir } := by
            unfold unlinkChild
            rw [if_pos hcont]
          have hloadF : ∀ k, Registry.load (Registry.eraseKey
              (Registry.modifyAt c.metadata item.ParentID
                (unlinkChild id item.IsDir)) id) k =
              if k = id then none
              else if k = item.ParentID then some (unlinkChild id item.IsDir parent)
              else Registry.load c.metadata k := by
            intro k
            by_cases hk : k = id
            · subst hk
              simp [Registry.load_eraseKey_self]
            · rw [Registry.load_eraseKey_other _ _ _ hk, if_neg hk]
              by_cases hp : k = item.ParentID
              · subst hp
                rw [Registry.load_modifyAt_self, hpar, if_pos rfl]
                rfl
              · rw [Registry.load_modifyAt_other _ _ _ _ hp, if_neg hp]
          have hex : ∀ (k : String) (it' : DriveItem), k ≠ item.ParentID →
              Registry.load c.metadata k = some it' → id ∉ childList it' := by
            intro k it' hk hl hmem
            exact hk (listed_only_in_parent hInv hit hl hmem)
          have herased : ∀ cid ∈ (parent.children.getD []).erase id,
              cid ≠ id ∧ cid ∈ childList parent := by
            intro cid hcid
            have := (List.Nodup.mem_erase_iff hnodupP).1 (by
              simpa [childList] using hcid)
            exact ⟨this.1, this.2⟩
          have hdirF : ∀ cid : String, cid ≠ id →
              dirAt (Registry.eraseKey (Registry.modifyAt c.metadata item.ParentID
                (unlinkChild id item.IsDir)) id) cid = dirAt c.metadata cid := by
            intro cid hcid
            unfold dirAt
            rw [hloadF, if_neg hcid]
            by_cases hp : cid = item.ParentID
            · rw [if_pos hp, huval, hp, hpar]
              rfl
            · rw [if_neg hp]
          have hpkF : ∀ cid : String, cid ≠ id →
              parentKeyOf (Registry.eraseKey (Registry.modifyAt c.metadata item.ParentID
                (unlinkChild id item.IsDir)) id) cid = parentKeyOf c.metadata cid := by
            intro cid hcid
            unfold parentKeyOf
            rw [hloadF, if_neg hcid]
            by_cases hp : cid = item.ParentID
            · rw [if_pos hp, huval, hp, hpar]
              rfl
            · rw [if_neg hp]
          refine ⟨hnodupF, ?_, ?_, ?_, ?_, ?_⟩
          · intro k _ it' hl
            rw [hloadF] at hl
            by_cases hk : k = id
            · rw [if_pos hk] at hl; cases hl
            · rw [if_neg hk] at hl
              by_cases hp : k = item.ParentID
              · rw [if_pos hp, huval] at hl
                cases hl
                exact (hInv.keyCons' hpar).trans hp.symm
              · rw [if_neg hp] at hl
                exact hInv.keyCons' hl
          · intro k _ it' hl cid hc
            rw [hloadF] at hl
            by_cases hk : k = id
            · rw [if_pos hk] at hl; cases hl
            · rw [if_neg hk] at hl
              by_cases hp : k = item.ParentID
              · rw [if_pos hp, huval] at hl
                cases hl
                simp only [childList, Option.getD_some] at hc
                obtain ⟨hcne, hcmem⟩ := herased cid hc
                rw [hpkF cid hcne, hp]
                exact hInv.linked' hpar hcmem
              · rw [if_neg hp] at hl
                have hcne : cid ≠ id := by
                  intro hcid
                  exact hex k it' hp hl (hcid ▸ hc)
                rw [hpkF cid hcne]
                exact hInv.linked' hl hc
          · intro k _ it' hl
            rw [hloadF] at hl
            by_cases hk : k = id
            · rw [if_pos hk] at hl; cases hl
            · rw [if_neg hk] at hl
              by_cases hp : k = item.ParentID
              · rw [if_pos hp, huval] at hl
                cases hl
                simpa [childList] using List.Nodup.erase id hnodupP
              · rw [if_neg hp] at hl
                exact hInv.childNodup' hl
          · intro k _ it' hl
            rw [hloadF] at hl
            by_cases hk : k = id
            · rw [if_pos hk] at hl; cases hl
            · rw [if_neg hk] at hl
              by_cases hp : k = item.ParentID
              · rw [if_pos hp, huval] at hl
                cases hl
                simp only [childList, Option.getD_some]
                have hcount : subdirCount (Registry.eraseKey
                    (Registry.modifyAt c.metadata item.ParentID
                      (unlinkChild id item.IsDir)) id)
                    ((parent.children.getD []).erase id) =
                    subdirCount c.metadata ((parent.children.getD []).erase id) := by
                  refine subdirCount_congr ?_
                  intro cid hcid
                  exact hdirF cid (herased cid hcid).1
                rw [hcount]
                have hperm : (parent.children.getD []).Perm
                    (id :: (parent.children.getD []).erase id) :=
                  List.perm_cons_erase (by simpa [childList] using hmemP)
                have hold := hInv.subdirAcc' hpar
                unfold childList at hold
                have hsplit : subdirCount c.metadata (parent.children.getD []) =
                    subdirCount c.metadata (id :: (parent.children.getD []).erase id) := by
                  unfold subdirCount
                  exact (hperm.filter _).length_eq
                have hdid : dirAt c.metadata id = item.IsDir := by
                  unfold dirAt
                  rw [hit]
                rw [hsplit] at hold
                unfold subdirCount at hold ⊢
                rw [List.filter_cons] at hold
                by_cases hdir : item.IsDir
                · rw [hdid, hdir] at hold
                  simp only [if_true] at hold
                  simp only [hdir, if_true]
                  rw [hold]
                  simp
                · rw [hdid] at hold
                  simp only [hdir, if_false, Bool.false_eq_true] at hold ⊢
                  exact hold
              · rw [if_neg hp] at hl
                rw [hInv.subdirAcc' hl]
                refine (subdirCount_congr ?_).symm
                intro cid hc
                have hcne : cid ≠ id := by
                  intro hcid
                  exact hex k it' hp hl (hcid ▸ hc)
                exact hdirF cid hcne
          · intro k _ it' hl
            rw [hloadF] at hl
            by_cases hk : k = id
            · rw [if_pos hk] at hl; cases hl
            · rw [if_neg hk] at hl
              by_cases hp : k = item.ParentID
              · rw [if_pos hp, huval] at hl
                cases hl
                show parent.Parent.ID ≠ k
                rw [hp]
                exact hInv.noSelf' hpar
              · rw [if_neg hp] at hl
                exact hInv.noSelf' hl
      · -- the parent does not list the id: the modify is the identity
        have hcont' : ¬ id ∈ childList parent := by
          simpa [childList] using hcont
        have huval : unlinkChild id item.IsDir parent = parent := by
          unfold unlinkChild
          rw [if_neg hcont]
        refine @inv_erase_pointwise c.metadata _ id hInv hnodupF ?_ ?_
        · intro k
          by_cases hk : k = id
          · subst hk
            simp [Registry.load_eraseKey_self]
          · rw [Registry.load_eraseKey_other _ _ _ hk, if_neg hk]
            by_cases hp : k = item.ParentID
            · subst hp
              rw [Registry.load_modifyAt_self, hpar]
              simp [huval]
            · rw [Registry.load_modifyAt_other _ _ _ _ hp]
        · intro k it' hk hl hmem
          have hkp := listed_only_in_parent hInv hit hl hmem
          subst hkp
          rw [hpar] at hl
          injection hl with h2
          subst h2
          exact hcont' hmem

theorem getChildrenID_absent {c : Cache} {id : String} {auth : Option String}
    {remote : String → List DriveItem}
    (hit : Registry.load c.metadata id = none) :
    Cache.GetChildrenID c id auth remote =
      (some (id ++ " not found in cache"), [], c, false) := by
  unfold Cache.GetChildrenID
  split
  · rfl
  · next item heq =>
    rw [hit] at heq
    cases heq

theorem getChildrenID_notdir {c : Cache} {id : String} {auth : Option String}
    {remote : String → List DriveItem} {item : DriveItem}
    (hit : Registry.load c.metadata id = some item)
    (hdir : item.IsDir = false) :
    Cache.GetChildrenID c id auth remote = (none, [], c, false) := by
  unfold Cache.GetChildrenID
  split
  · next heq =>
    rw [hit] at heq
    cases heq
  · next item' heq =>
    rw [hit] at heq
    injection heq with h
    subst h
    rw [if_pos (by rw [hdir]; rfl)]

theorem getChildrenID_cached {c : Cache} {id : String} {auth : Option String}
    {remote : String → List DriveItem} {item : DriveItem} {ids : List String}
    (hit : Registry.load c.metadata id = some item)
    (hdir : item.IsDir = true) (hch : item.children = some ids) :
    Cache.GetChildrenID c id auth remote =
      (none, childMapFromCache c.metadata ids, c, false) := by
  unfold Cache.GetChildrenID
  split
  · next heq =>
    rw [hit] at heq
    cases heq
  · next item' heq =>
    rw [hit] at heq
    injection heq with h
    subst h
    rw [if_neg (by rw [hdir]; exact fun hc => by cases hc)]
    split
    · next ids' heq2 =>
      rw [hch] at heq2
      injection heq2 with h2
      subst h2
      rfl
    · next heq2 =>
      rw [hch] at heq2
      cases heq2

theorem getChildrenID_noauth {c : Cache} {id : String} {auth : Option String}
    {remote : String → List DriveItem} {item : DriveItem}
    (hit : Registry.load c.metadata id = some item)
    (hdir : item.IsDir = true) (hch : item.children = none)
    (hauth : authOK auth = false) :
    Cache.GetChildrenID c id auth remote =
      (some ("Auth was nil/zero and children of \"" ++ item.Path ++
        "\" were not in cache. Could not fetch item as a result."), [], c, false) := by
  unfold Cache.GetChildrenID
  split
  · next heq =>
    rw [hit] at heq
    cases heq
  · next item' heq =>
    rw [hit] at heq
    injection heq with h
    subst h
    rw [if_neg (by rw [hdir]; exact fun hc => by cases hc)]
    split
    · next ids' heq2 =>
      rw [hch] at heq2
      cases heq2
    · rw [if_pos (by rw [hauth]; rfl)]

theorem getChildrenID_fetch {c : Cache} {id : String} {auth : Option String}
    {remote : String → List DriveItem} {item : DriveItem}
    (hit : Registry.load c.metadata id = some item)
    (hdir : item.IsDir = true) (hch : item.children = none)
    (hauth : authOK auth = true) :
    Cache.GetChildrenID c id auth remote =
      (none,
       ((remote id).foldl (fetchStep id)
         (Registry.modifyAt c.metadata id (fun it => { it with children := some [] }),
          [])).2,
       { c with metadata := ((remote id).foldl (fetchStep id)
         (Registry.modifyAt c.metadata id (fun it => { it with children := some [] }),
          [])).1 },
       true) := by
  unfold Cache.GetChildrenID
  split
  · next heq =>
    rw [hit] at heq
    cases heq
  · next item' heq =>
    rw [hit] at heq
    injection heq with h
    subst h
    rw [if_neg (by rw [hdir]; exact fun hc => by cases hc)]
    split
    · next ids' heq2 =>
      rw [hch] at heq2
      cases heq2
    · rw [if_neg (by rw [hauth]; exact fun hc => by cases hc)]

theorem find?_of_mem_nodup {fetched : List DriveItem} {ch : DriveItem}
    (hnd : (fetched.map (fun x => x.IDInternal)).Nodup) (hmem : ch ∈ fetched) :
    fetched.find? (fun x => x.IDInternal == ch.IDInternal) = some ch := by
  induction fetched with
  | nil => cases hmem
  | cons x rest ih =>
    simp only [List.map_cons, List.nodup_cons] at hnd
    rcases List.mem_cons.1 hmem with h1 | h2
    · subst h1
      simp [List.find?]
    · have hne : x.IDInternal ≠ ch.IDInternal := by
        intro hx
        exact hnd.1 (hx ▸ List.mem_map.2 ⟨ch, h2, rfl⟩)
      rw [List.find?]
      rw [show (x.IDInternal == ch.IDInternal) = false by
        simpa using hne]
      exact ih hnd.2 h2

theorem fetchFold_nodup_keys {id : String} (fetched : List DriveItem) :
    ∀ (m0 res0 : Registry), (Registry.keys m0).Nodup →
      (Registry.keys ((fetched.foldl (fetchStep id) (m0, res0)).1)).Nodup := by
  induction fetched with
  | nil => intro m0 res0 h; exact h
  | cons ch rest ih =>
    intro m0 res0 h
    simp only [List.foldl_cons]
    exact ih _ _ (Registry.nodup_keys_modifyAt (Registry.nodup_keys_store h))

/-- Load-level description of the fetch loop of `GetChildrenID`: the
directory entry accumulates the fetched ids and directory count; each
fetched record is stored under its own id (last record wins, but with
distinct ids `find?` is exact); everything else is untouched. -/
theorem fetchFold_load {id : String} (fetched : List DriveItem)
    (hni : ∀ ch ∈ fetched, ch.IDInternal ≠ id)
    (hnd : (fetched.map (fun x => x.IDInternal)).Nodup) :
    ∀ (m0 res0 : Registry) (k : String),
      (∀ it, Registry.load m0 id = some it → it.children ≠ none) →
      Registry.load ((fetched.foldl (fetchStep id) (m0, res0)).1) k =
        if k = id then
          (Registry.load m0 id).map (fun it =>
            { it with
              children := some ((it.children.getD []) ++
                fetched.map (fun ch => ch.IDInternal)),
              subdir := it.subdir +
                (fetched.filter (fun ch => ch.IsDir)).length })
        else
          match fetched.find? (fun ch => ch.IDInternal == k) with
          | some ch => some ch
          | none => Registry.load m0 k := by
  induction fetched with
  | nil =>
    intro m0 res0 k hsome
    simp only [List.foldl_nil, List.map_nil, List.filter_nil, List.length_nil,
      List.find?_nil]
    by_cases hk : k = id
    · subst hk
      rw [if_pos rfl]
      cases hl : Registry.load m0 k with
      | none => rfl
      | some it =>
        have hth := hsome it hl
        cases hcc : it.children with
        | none => exact absurd hcc hth
        | some l =>
          simp only [Option.map]
          congr 1
          cases it
          simp only at hcc
          subst hcc
          simp
    · rw [if_neg hk]
  | cons ch rest ih =>
    intro m0 res0 k hsome
    simp only [List.map_cons, List.nodup_cons] at hnd
    have hni' : ∀ x ∈ rest, x.IDInternal ≠ id := fun x hx => hni x (List.mem_cons_of_mem _ hx)
    have hchid : ch.IDInternal ≠ id := hni ch (List.mem_cons_self _ _)
    simp only [List.foldl_cons]
    have hm2some : ∀ it, Registry.load (fetchStep id (m0, res0) ch).1 id = some it →
        it.children ≠ none := by
      intro it hl
      unfold fetchStep at hl
      simp only [Registry.load_modifyAt_self] at hl
      cases hl2 : Registry.load (Registry.store m0 ch.IDInternal ch) id with
      | none => rw [hl2] at hl; cases hl
      | some it2 =>
        rw [hl2] at hl
        injection hl with h
        subst h
        simp
    rw [ih hni' hnd.2 _ _ k hm2some]
    by_cases hk : k = id
    · subst hk
      rw [if_pos rfl, if_pos rfl]
      unfold fetchStep
      simp only [Registry.load_modifyAt_self,
        Registry.load_store_other _ _ _ _ (Ne.symm hchid)]
      cases hl : Registry.load m0 k with
      | none => rfl
      | some it =>
        simp only [Option.map_map, Option.map, Function.comp]
        rw [List.filter_cons]
        by_cases hdir : ch.IsDir <;>
          simp [hdir, Nat.add_assoc, Nat.add_comm 1]
    · rw [if_neg hk, if_neg hk]
      rw [List.find?]
      by_cases hck : ch.IDInternal = k
      · rw [show (ch.IDInternal == k) = true by simpa using hck]
        have hrest : rest.find? (fun x => x.IDInternal == k) = none := by
          rw [List.find?_eq_none]
          intro x hx
          simp only [beq_iff_eq]
          intro hxk
          exact hnd.1 (by rw [← hck] at hxk; exact hxk ▸ List.mem_map.2 ⟨x, hx, rfl⟩)
        rw [hrest]
        unfold fetchStep
        simp only [Registry.load_modifyAt_other _ _ _ _ hk]
        rw [← hck, Registry.load_store_self]
      · rw [show (ch.IDInternal == k) = false by simpa using hck]
        cases hfind : rest.find? (fun x => x.IDInternal == k) with
        | some x => rfl
        | none =>
          unfold fetchStep
          simp only [Registry.load_modifyAt_other _ _ _ _ hk]
          rw [Registry.load_store_other _ _ _ _ (fun h => hck h.symm)]

/-- `GetChildrenID` with well-formed fetched records preserves the
registry invariant (the non-fetching branches leave the cache alone). -/
theorem inv_getChildrenID {c : Cache} {id : String} {auth : Option String}
    {fetched : List DriveItem}
    (hInv : CacheInv c.metadata)
    (hnd : (fetched.map (fun ch => ch.IDInternal)).Nodup)
    (hwf : ∀ ch ∈ fetched, ch.Parent.ID = id ∧ ch.children = none ∧
      ch.subdir = 0 ∧ ch.IDInternal ≠ id ∧
      Registry.load c.metadata ch.IDInternal = none) :
    CacheInv (Cache.GetChildrenID c id auth (fun _ => fetched)).2.2.1.metadata := by
  cases hit : Registry.load c.metadata id with
  | none => rw [getChildrenID_absent hit]; exact hInv
  | some item =>
    cases hdir : item.IsDir with
    | false => rw [getChildrenID_notdir hit hdir]; exact hInv
    | true =>
      cases hch : item.children with
      | some ids => rw [getChildrenID_cached hit hdir hch]; exact hInv
      | none =>
        cases hauth : authOK auth with
        | false => rw [getChildrenID_noauth hit hdir hch hauth]; exact hInv
        | true =>
          rw [getChildrenID_fetch hit hdir hch hauth]
          have hni : ∀ ch ∈ fetched, ch.IDInternal ≠ id :=
            fun ch hc => (hwf ch hc).2.2.2.1
          have hm0 : ∀ k, Registry.load (Registry.modifyAt c.metadata id
              (fun it => { it with children := some [] })) k =
              if k = id then some { item with children := some [] }
              else Registry.load c.metadata k := by
            intro k
            by_cases hk : k = id
            · subst hk
              rw [Registry.load_modifyAt_self, hit, if_pos rfl]
              rfl
            · rw [Registry.load_modifyAt_other _ _ _ _ hk, if_neg hk]
          have hsome : ∀ it, Registry.load (Registry.modifyAt c.metadata id
              (fun it => { it with children := some [] })) id = some it →
              it.children ≠ none := by
            intro it hl
            rw [hm0, if_pos rfl] at hl
            injection hl with h
            subst h
            simp
          have hload := fetchFold_load fetched hni hnd
            (Registry.modifyAt c.metadata id (fun it => { it with children := some [] }))
            [] 
          have hloadF : ∀ k, Registry.load ((fetched.foldl (fetchStep id)
              (Registry.modifyAt c.metadata id
                (fun it => { it with children := some [] }), [])).1) k =
              if k = id then
                some { item with
                  children := some (fetched.map (fun ch => ch.IDInternal)),
                  subdir := item.subdir + (fetched.filter (fun ch => ch.IsDir)).length }
              else
                match fetched.find? (fun ch => ch.IDInternal == k) with
                | some ch => some ch
                | none => Registry.load c.metadata k := by
            intro k
            rw [hload k hsome]
            by_cases hk : k = id
            · rw [if_pos hk, if_pos hk, hm0, if_pos rfl]
              simp
            · rw [if_neg hk, if_neg hk]
              cases hfind : fetched.find? (fun ch => ch.IDInternal == k) with
              | some ch => rfl
              | none => rw [hm0, if_neg hk]
          -- facts about found records
          have hfound : ∀ {k : String} {ch : DriveItem},
              fetched.find? (fun x => x.IDInternal == k) = some ch →
              ch ∈ fetched ∧ ch.IDInternal = k := by
            intro k ch hf
            refine ⟨List.mem_of_find?_eq_some hf, ?_⟩
            have := List.find?_some hf
            simpa using this
          have hsubdir0 : item.subdir = 0 := by
            have := hInv.subdirAcc' hit
            rw [childList, hch] at this
            simpa [subdirCount] using this
          -- resolution of previously registered ids is unchanged up to fields
          have hold_pk : ∀ cid : String,
              (Registry.load c.metadata cid).isSome →
              parentKeyOf ((fetched.foldl (fetchStep id)
                (Registry.modifyAt c.metadata id
                  (fun it => { it with children := some [] }), [])).1) cid =
              parentKeyOf c.metadata cid := by
            intro cid hcs
            unfold parentKeyOf
            rw [hloadF]
            by_cases hk : cid = id
            · rw [if_pos hk, hk, hit]
              rfl
            · rw [if_neg hk]
              cases hfind : fetched.find? (fun x => x.IDInternal == cid) with
              | some ch =>
                obtain ⟨hmem, hcid⟩ := hfound hfind
                rw [← hcid] at hcs
                rw [(hwf ch hmem).2.2.2.2] at hcs
                cases hcs
              | none => rfl
          have hold_dir : ∀ cid : String,
              (Registry.load c.metadata cid).isSome →
              dirAt ((fetched.foldl (fetchStep id)
                (Registry.modifyAt c.metadata id
                  (fun it => { it with children := some [] }), [])).1) cid =
              dirAt c.metadata cid := by
            intro cid hcs
            unfold dirAt
            rw [hloadF]
            by_cases hk : cid = id
            · rw [if_pos hk, hk, hit]
              rfl
            · rw [if_neg hk]
              cases hfind : fetched.find? (fun x => x.IDInternal == cid) with
              | some ch =>
                obtain ⟨hmem, hcid⟩ := hfound hfind
                rw [← hcid] at hcs
                rw [(hwf ch hmem).2.2.2.2] at hcs
                cases hcs
              | none => rfl
          refine ⟨fetchFold_nodup_keys fetched _ _
            (Registry.nodup_keys_modifyAt hInv.nodupKeys), ?_, ?_, ?_, ?_, ?_⟩
          · intro k _ it hl
            rw [hloadF] at hl
            by_cases hk : k = id
            · rw [if_pos hk] at hl
              cases hl
              exact (hInv.keyCons' hit).trans hk.symm
            · rw [if_neg hk] at hl
              cases hfind : fetched.find? (fun x => x.IDInternal == k) with
              | some ch =>
                rw [hfind] at hl
                injection hl with h
                subst h
                exact (hfound hfind).2
              | none =>
                rw [hfind] at hl
                exact hInv.keyCons' hl
          · intro k _ it hl cid hc
            rw [hloadF] at hl
            by_cases hk : k = id
            · rw [if_pos hk] at hl
              cases hl
              simp only [childList, Option.getD_some] at hc
              obtain ⟨ch, hmem, hcid⟩ := List.mem_map.1 hc
              have hf := find?_of_mem_nodup hnd hmem
              unfold parentKeyOf
              rw [hloadF]
              rw [if_neg (by rw [← hcid]; exact hni ch hmem), ← hcid, hf]
              simp [(hwf ch hmem).1, hk]
            · rw [if_neg hk] at hl
              cases hfind : fetched.find? (fun x => x.IDInternal == k) with
              | some ch =>
                rw [hfind] at hl
                injection hl with h
                subst h
                rw [childList, (hwf _ (hfound hfind).1).2.1] at hc
                cases hc
              | none =>
                rw [hfind] at hl
                have hres : (Registry.load c.metadata cid).isSome := by
                  obtain ⟨ch2, hch2, -⟩ := linked_load hInv hl hc
                  simp [hch2]
                rw [hold_pk cid hres]
                exact hInv.linked' hl hc
          · intro k _ it hl
            rw [hloadF] at hl
            by_cases hk : k = id
            · rw [if_pos hk] at hl
              cases hl
              simp only [childList, Option.getD_some]
              exact hnd
            · rw [if_neg hk] at hl
              cases hfind : fetched.find? (fun x => x.IDInternal == k) with
              | some ch =>
                rw [hfind] at hl
                injection hl with h
                subst h
                simp [childList, (hwf _ (hfound hfind).1).2.1]
              | none =>
                rw [hfind] at hl
                exact hInv.childNodup' hl
          · intro k _ it hl
            have hdirF : ∀ ch ∈ fetched,
                dirAt ((fetched.foldl (fetchStep id)
                  (Registry.modifyAt c.metadata id
                    (fun it => { it with children := some [] }), [])).1)
                  ch.IDInternal = ch.IsDir := by
              intro ch hmem
              unfold dirAt
              rw [hloadF, if_neg (hni ch hmem), find?_of_mem_nodup hnd hmem]
            rw [hloadF] at hl
            by_cases hk : k = id
            · rw [if_pos hk] at hl
              cases hl
              simp only [childList, Option.getD_some]
              have hcount : ∀ l : List DriveItem, (∀ ch ∈ l, ch ∈ fetched) →
                  subdirCount ((fetched.foldl (fetchStep id)
                    (Registry.modifyAt c.metadata id
                      (fun it => { it with children := some [] }), [])).1)
                    (l.map (fun ch => ch.IDInternal)) =
                  (l.filter (fun ch => ch.IsDir)).length := by
                intro l
                induction l with
                | nil => intro _; simp [subdirCount]
                | cons x xs ih =>
                  intro hsub
                  have hx := hdirF x (hsub x (List.mem_cons_self _ _))
                  unfold subdirCount at ih ⊢
                  simp only [List.map_cons, List.filter_cons, hx]
                  by_cases hxd : x.IsDir
                  · simp only [hxd, if_true, List.length_cons]
                    rw [ih (fun ch hc => hsub ch (List.mem_cons_of_mem _ hc))]
                  · simp only [hxd, if_false, Bool.false_eq_true]
                    rw [ih (fun ch hc => hsub ch (List.mem_cons_of_mem _ hc))]
              rw [hcount fetched (fun ch hc => hc), hsubdir0]
              simp
            · rw [if_neg hk] at hl
              cases hfind : fetched.find? (fun x => x.IDInternal == k) with
              | some ch =>
                rw [hfind] at hl
                injection hl with h
                subst h
                have hw := hwf _ (hfound hfind).1
                rw [hw.2.2.1, childList, hw.2.1]
                simp [subdirCount]
              | none =>
                rw [hfind] at hl
                rw [hInv.subdirAcc' hl]
                refine (subdirCount_congr ?_).symm
                intro cid hc
                have hres : (Registry.load c.metadata cid).isSome := by
                  obtain ⟨ch2, hch2, -⟩ := linked_load hInv hl hc
                  simp [hch2]
                exact hold_dir cid hres
          · intro k _ it hl
            rw [hloadF] at hl
            by_cases hk : k = id
            · rw [if_pos hk] at hl
              cases hl
              show item.Parent.ID ≠ k
              rw [hk]
              exact hInv.noSelf' hit
            · rw [if_neg hk] at hl
              cases hfind : fetched.find? (fun x => x.IDInternal == k) with
              | some ch =>
                rw [hfind] at hl
                injection hl with h
                subst h
                have hw := hwf ch (hfound hfind).1
                rw [hw.1]
                intro hx
                exact hw.2.2.2.1 ((hfound hfind).2.trans hx.symm)
              | none =>
                rw [hfind] at hl
                exact hInv.noSelf' hl
theorem moveID_found_eq {c : Cache} {a b : String} {item0 parent : DriveItem}
    (hita : Registry.load c.metadata a = some item0)
    (hpar : Registry.load c.metadata item0.Parent.ID = some parent)
    (hns : item0.Parent.ID ≠ a) :
    Cache.MoveID c a b = some (none,
      Cache.InsertID
        { c with metadata :=
          (Registry.eraseKey
            (Registry.modifyAt
              (Registry.modifyAt
                (Registry.modifyAt c.metadata item0.Parent.ID (replaceChildRef a b))
                a (setItemID b))
              item0.Parent.ID (unlinkChild a item0.IsDir))
            a) }
        b (setItemID b item0)) := by
  have hm2a : Registry.load (Registry.modifyAt
      (Registry.modifyAt c.metadata item0.Parent.ID (replaceChildRef a b))
      a (setItemID b)) a = some (setItemID b item0) := by
    rw [Registry.load_modifyAt_self, Registry.load_modifyAt_other _ _ _ _ (Ne.symm hns),
      hita]
    rfl
  have hm2p : Registry.load (Registry.modifyAt
      (Registry.modifyAt c.metadata item0.Parent.ID (replaceChildRef a b))
      a (setItemID b)) item0.Parent.ID = some (replaceChildRef a b parent) := by
    rw [Registry.load_modifyAt_other _ _ _ _ hns, Registry.load_modifyAt_self, hpar]
    rfl
  have hcore : deleteIDCore (Registry.modifyAt
      (Registry.modifyAt c.metadata item0.Parent.ID (replaceChildRef a b))
      a (setItemID b)) a = some (Registry.modifyAt (Registry.modifyAt
      (Registry.modifyAt c.metadata item0.Parent.ID (replaceChildRef a b))
      a (setItemID b)) item0.Parent.ID (unlinkChild a item0.IsDir)) := by
    unfold deleteIDCore
    split
    · next heq =>
      rw [hm2a] at heq
      cases heq
    · next item' heq =>
      rw [hm2a] at heq
      injection heq with h
      subst h
      split
      · next heq2 =>
        rw [show (setItemID b item0).ParentID = item0.Parent.ID from rfl, hm2p] at heq2
        cases heq2
      · next parent' heq2 =>
        rfl
  have hm3a : Registry.load (Registry.modifyAt (Registry.modifyAt
      (Registry.modifyAt c.metadata item0.Parent.ID (replaceChildRef a b))
      a (setItemID b)) item0.Parent.ID (unlinkChild a item0.IsDir)) a
      = some (setItemID b item0) := by
    rw [Registry.load_modifyAt_other _ _ _ _ (Ne.symm hns), hm2a]
  unfold Cache.MoveID
  split
  · next heq =>
    rw [hita] at heq
    simp at heq
  · next key item0' heq =>
    rw [hita] at heq
    simp only [Option.some.injEq, Prod.mk.injEq] at heq
    obtain ⟨h1, h2⟩ := heq
    subst h1
    subst h2
    split
    · next heq2 =>
      rw [show item0.ParentID = item0.Parent.ID from rfl, hpar] at heq2
      cases heq2
    · next parent' heq2 =>
      rw [show item0.ParentID = item0.Parent.ID from rfl, hpar] at heq2
      injection heq2 with h3
      subst h3
      split
      · next heq3 =>
        rw [show item0.ParentID = item0.Parent.ID from rfl, hcore] at heq3
        cases heq3
      · next m3 heq3 =>
        rw [show item0.ParentID = item0.Parent.ID from rfl, hcore] at heq3
        injection heq3 with h4
        subst h4
        split
        · next heq4 =>
          rw [hm3a] at heq4
          cases heq4
        · next itemV heq4 =>
          rw [hm3a] at heq4
          injection heq4 with h5
          subst h5
          rfl

theorem moveID_notfound_eq {c : Cache} {a b : String}
    (ha : Registry.load c.metadata a = none)
    (hb : Registry.load c.metadata b = none) :
    Cache.MoveID c a b = some (some ("Could not get item: " ++ a), c) := by
  unfold Cache.MoveID
  split
  · rfl
  · next key item0' heq =>
    rw [ha, hb] at heq
    simp at heq

theorem moveID_crash_eq {c : Cache} {a b : String} {item0 : DriveItem}
    (hita : Registry.load c.metadata a = some item0)
    (hpar : Registry.load c.metadata item0.Parent.ID = none) :
    Cache.MoveID c a b = none := by
  unfold Cache.MoveID
  split
  · next heq =>
    rw [hita] at heq
    simp at heq
  · next key item0' heq =>
    rw [hita] at heq
    simp only [Option.some.injEq, Prod.mk.injEq] at heq
    obtain ⟨h1, h2⟩ := heq
    subst h1
    subst h2
    split
    · rfl
    · next parent' heq2 =>
      rw [show item0.ParentID = item0.Parent.ID from rfl, hpar] at heq2
      cases heq2

theorem listReplaceFirst_of_not_mem {a b : String} {l : List String}
    (h : a ∉ l) : listReplaceFirst a b l = l := by
  induction l with
  | nil => rfl
  | cons x xs ih =>
    have hx : x ≠ a := fun hxa => h (hxa ▸ List.mem_cons_self _ _)
    rw [listReplaceFirst, if_neg hx, ih (fun hm => h (List.mem_cons_of_mem _ hm))]

theorem mem_listReplaceFirst_self {a b : String} {l : List String}
    (h : a ∈ l) : b ∈ listReplaceFirst a b l := by
  induction l with
  | nil => cases h
  | cons x xs ih =>
    by_cases hx : x = a
    · rw [listReplaceFirst, if_pos hx]
      exact List.mem_cons_self _ _
    · rw [listReplaceFirst, if_neg hx]
      rcases List.mem_cons.1 h with h1 | h2
      · exact absurd h1.symm hx
      · exact List.mem_cons_of_mem _ (ih h2)

theorem mem_of_mem_listReplaceFirst {a b c : String} {l : List String}
    (h : c ∈ listReplaceFirst a b l) : c = b ∨ c ∈ l := by
  induction l with
  | nil => cases h
  | cons x xs ih =>
    by_cases hx : x = a
    · rw [listReplaceFirst, if_pos hx] at h
      rcases List.mem_cons.1 h with h1 | h2
      · exact Or.inl h1
      · exact Or.inr (List.mem_cons_of_mem _ h2)
    · rw [listReplaceFirst, if_neg hx] at h
      rcases List.mem_cons.1 h with h1 | h2
      · exact Or.inr (h1 ▸ List.mem_cons_self _ _)
      · rcases ih h2 with h3 | h3
        · exact Or.inl h3
        · exact Or.inr (List.mem_cons_of_mem _ h3)

theorem not_mem_listReplaceFirst {a b : String} {l : List String}
    (hab : a ≠ b) (hnd : l.Nodup) : a ∉ listReplaceFirst a b l := by
  induction l with
  | nil => simp [listReplaceFirst]
  | cons x xs ih =>
    simp only [List.nodup_cons] at hnd
    by_cases hx : x = a
    · rw [listReplaceFirst, if_pos hx]
      intro hmem
      rcases List.mem_cons.1 hmem with h1 | h2
      · exact hab h1
      · exact hnd.1 (hx ▸ h2)
    · rw [listReplaceFirst, if_neg hx]
      intro hmem
      rcases List.mem_cons.1 hmem with h1 | h2
      · exact hx h1.symm
      · exact ih hnd.2 h2

theorem nodup_listReplaceFirst {a b : String} {l : List String}
    (hnd : l.Nodup) (hb : b ∉ l) : (listReplaceFirst a b l).Nodup := by
  induction l with
  | nil => simp [listReplaceFirst]
  | cons x xs ih =>
    simp only [List.nodup_cons] at hnd
    have hbx : b ∉ xs := fun hm => hb (List.mem_cons_of_mem _ hm)
    by_cases hx : x = a
    · rw [listReplaceFirst, if_pos hx]
      exact List.nodup_cons.2 ⟨hbx, hnd.2⟩
    · rw [listReplaceFirst, if_neg hx]
      refine List.nodup_cons.2 ⟨?_, ih hnd.2 hbx⟩
      intro hmem
      rcases mem_of_mem_listReplaceFirst hmem with h1 | h1
      · exact hb (h1 ▸ List.mem_cons_self _ _)
      · exact hnd.1 h1

theorem childList_replaceChildRef {a b : String} {p : DriveItem} :
    childList (replaceChildRef a b p) = listReplaceFirst a b (childList p) := by
  unfold childList replaceChildRef
  cases p.children <;> rfl

theorem subdirCount_replaceFirst {F m : Registry} {a b : String} {l : List String}
    (hnd : l.Nodup) (hba : dirAt F b = dirAt m a)
    (hcong : ∀ cid ∈ l, cid ≠ a → dirAt F cid = dirAt m cid) :
    subdirCount F (listReplaceFirst a b l) = subdirCount m l := by
  induction l with
  | nil => rfl
  | cons x xs ih =>
    simp only [List.nodup_cons] at hnd
    by_cases hx : x = a
    · subst hx
      rw [listReplaceFirst, if_pos rfl]
      unfold subdirCount at ih ⊢
      rw [List.filter_cons, List.filter_cons, hba]
      have htail : List.filter (fun cid => dirAt F cid) xs =
          List.filter (fun cid => dirAt F cid) xs := rfl
      have hcongtail : (List.filter (fun cid => dirAt F cid) xs).length =
          (List.filter (fun cid => dirAt m cid) xs).length := by
        rw [List.filter_congr]
        intro cid hc
        exact hcong cid (List.mem_cons_of_mem _ hc) (fun hca => hnd.1 (hca ▸ hc))
      by_cases hd : dirAt m x
      · simp only [hd, if_true, List.length_cons, hcongtail]
      · simp only [hd, if_false, Bool.false_eq_true, hcongtail]
    · rw [listReplaceFirst, if_neg hx]
      unfold subdirCount at ih ⊢
      rw [List.filter_cons, List.filter_cons,
        hcong x (List.mem_cons_self _ _) (fun hca => hx hca)]
      have := ih hnd.2 (fun cid hc hca => hcong cid (List.mem_cons_of_mem _ hc) hca)
      by_cases hd : dirAt m x
      · simp only [hd, if_true, List.length_cons]
        rw [this]
      · simp only [hd, if_false, Bool.false_eq_true]
        rw [this]

/-- The cache state after `MoveID(a, b)` in the in-place-replacement case:
either `a` occurs in the parent's child list (so the final `InsertID`
early-returns on the duplicate check) or the item's parent id is empty
(root re-registration, `InsertID` stops after the store).  The final
registry holds the item under `b` with only its `IDInternal` rewritten,
drops `a`, and has `a` replaced by `b` in place in the parent's child
list. -/
theorem moveID_result_load {c : Cache} {a b : String} {item0 parent : DriveItem}
    {cc : Cache}
    (hita : Registry.load c.metadata a = some item0)
    (hb : Registry.load c.metadata b = none)
    (hpar : Registry.load c.metadata item0.Parent.ID = some parent)
    (hns : item0.Parent.ID ≠ a)
    (hnotin : a ∉ listReplaceFirst a b (childList parent))
    (hcase : a ∈ childList parent ∨ item0.Parent.ID = "")
    (hr : Cache.MoveID c a b = some (none, cc)) :
    (∀ k, Registry.load cc.metadata k =
      if k = b then some (setItemID b item0)
      else if k = a then none
      else if k = item0.Parent.ID then some (replaceChildRef a b parent)
      else Registry.load c.metadata k) ∧
    ((Registry.keys c.metadata).Nodup → (Registry.keys cc.metadata).Nodup) := by
  have hab : a ≠ b := by
    intro h
    rw [h, hb] at hita
    cases hita
  have hpb : item0.Parent.ID ≠ b := by
    intro h
    rw [h, hb] at hpar
    cases hpar
  rw [moveID_found_eq hita hpar hns] at hr
  have hcc : Cache.InsertID
      { c with metadata :=
        (Registry.eraseKey
          (Registry.modifyAt
            (Registry.modifyAt
              (Registry.modifyAt c.metadata item0.Parent.ID (replaceChildRef a b))
              a (setItemID b))
            item0.Parent.ID (unlinkChild a item0.IsDir))
          a) }
      b (setItemID b item0) = cc := by
    simpa using hr
  have hu : unlinkChild a item0.IsDir (replaceChildRef a b parent) =
      replaceChildRef a b parent := by
    unfold unlinkChild
    rw [if_neg]
    rw [show (replaceChildRef a b parent).children.getD [] =
      listReplaceFirst a b (childList parent) from childList_replaceChildRef]
    intro hcont
    exact hnotin (by simpa using hcont)
  have hload3 : ∀ k, Registry.load
      (Registry.eraseKey
        (Registry.modifyAt
          (Registry.modifyAt
            (Registry.modifyAt c.metadata item0.Parent.ID (replaceChildRef a b))
            a (setItemID b))
          item0.Parent.ID (unlinkChild a item0.IsDir))
        a) k =
      if k = a then none
      else if k = item0.Parent.ID then some (replaceChildRef a b parent)
      else Registry.load c.metadata k := by
    intro k
    by_cases hk : k = a
    · subst hk
      rw [Registry.load_eraseKey_self, if_pos rfl]
    · rw [Registry.load_eraseKey_other _ _ _ hk, if_neg hk]
      by_cases hp : k = item0.Parent.ID
      · subst hp
        rw [Registry.load_modifyAt_self,
          Registry.load_modifyAt_other _ _ _ _ hns,
          Registry.load_modifyAt_self, hpar]
        simp [hu]
      · rw [Registry.load_modifyAt_other _ _ _ _ hp,
          Registry.load_modifyAt_other _ _ _ _ hk,
          Registry.load_modifyAt_other _ _ _ _ hp, if_neg hp]
  have hstore : cc.metadata = Registry.store
      (Registry.eraseKey
        (Registry.modifyAt
          (Registry.modifyAt
            (Registry.modifyAt c.metadata item0.Parent.ID (replaceChildRef a b))
            a (setItemID b))
          item0.Parent.ID (unlinkChild a item0.IsDir))
        a) b (setItemID b item0) := by
    rw [← hcc]
    rcases hcase with hmem | hroot
    · by_cases hroot : (setItemID b item0).ParentID = ""
      · exact insertID_root_metadata hroot
      · refine @insertID_dup_metadata _ b (setItemID b item0)
          (replaceChildRef a b parent) hroot ?_ ?_
        · rw [show (setItemID b item0).ParentID = item0.Parent.ID from rfl,
            Registry.load_store_other _ _ _ _ hpb, hload3,
            if_neg hns, if_pos rfl]
        · rw [show (replaceChildRef a b parent).children.getD [] =
            listReplaceFirst a b (childList parent) from childList_replaceChildRef]
          simpa using mem_listReplaceFirst_self hmem
    · exact insertID_root_metadata hroot
  constructor
  · intro k
    rw [hstore]
    by_cases hk : k = b
    · subst hk
      rw [Registry.load_store_self, if_pos rfl]
    · rw [Registry.load_store_other _ _ _ _ hk, if_neg hk, hload3]
  · intro hnd
    rw [hstore]
    exact Registry.nodup_keys_store (Registry.nodup_keys_eraseKey
      (Registry.nodup_keys_modifyAt (Registry.nodup_keys_modifyAt
        (Registry.nodup_keys_modifyAt hnd))))

/-- The cache state after `MoveID(a, b)` when the parent's child list
does not contain `a` (and the parent id is nonempty): the in-place
replacement is a no-op, so the final `InsertID` takes the linking branch
and appends `b` to the parent's children. -/
theorem moveID_result_load_append {c : Cache} {a b : String}
    {item0 parent : DriveItem} {cc : Cache}
    (hita : Registry.load c.metadata a = some item0)
    (hb : Registry.load c.metadata b = none)
    (hpar : Registry.load c.metadata item0.Parent.ID = some parent)
    (hns : item0.Parent.ID ≠ a)
    (hnotmem : a ∉ childList parent)
    (hbnot : b ∉ childList parent)
    (hpid0 : item0.Parent.ID ≠ "")
    (hr : Cache.MoveID c a b = some (none, cc)) :
    (∀ k, Registry.load cc.metadata k =
      if k = b then some { setItemID b item0 with Parent := ⟨parent.IDInternal⟩ }
      else if k = a then none
      else if k = item0.Parent.ID then
        some { parent with
          children := some ((childList parent) ++ [b]),
          subdir := if item0.IsDir then parent.subdir + 1 else parent.subdir }
      else Registry.load c.metadata k) ∧
    ((Registry.keys c.metadata).Nodup → (Registry.keys cc.metadata).Nodup) := by
  have hab : a ≠ b := by
    intro h
    rw [h, hb] at hita
    cases hita
  have hpb : item0.Parent.ID ≠ b := by
    intro h
    rw [h, hb] at hpar
    cases hpar
  have hrepl : listReplaceFirst a b (childList parent) = childList parent :=
    listReplaceFirst_of_not_mem hnotmem
  have hpval : replaceChildRef a b parent = parent := by
    unfold replaceChildRef
    have hch2 : Option.map (listReplaceFirst a b) parent.children =
        parent.children := by
      cases hpc : parent.children with
      | none => rfl
      | some l =>
        have hal : a ∉ l := by
          unfold childList at hnotmem
          rw [hpc] at hnotmem
          simpa using hnotmem
        simp [listReplaceFirst_of_not_mem hal]
    rw [hch2]
  have hnotin : a ∉ listReplaceFirst a b (childList parent) := by
    rw [hrepl]
    exact hnotmem
  rw [moveID_found_eq hita hpar hns] at hr
  have hcc : Cache.InsertID
      { c with metadata :=
        (Registry.eraseKey
          (Registry.modifyAt
            (Registry.modifyAt
              (Registry.modifyAt c.metadata item0.Parent.ID (replaceChildRef a b))
              a (setItemID b))
            item0.Parent.ID (unlinkChild a item0.IsDir))
          a) }
      b (setItemID b item0) = cc := by
    simpa using hr
  have hu : unlinkChild a item0.IsDir (replaceChildRef a b parent) =
      replaceChildRef a b parent := by
    unfold unlinkChild
    rw [if_neg]
    rw [show (replaceChildRef a b parent).children.getD [] =
      listReplaceFirst a b (childList parent) from childList_replaceChildRef]
    intro hcont
    exact hnotin (by simpa using hcont)
  have hload3 : ∀ k, Registry.load
      (Registry.eraseKey
        (Registry.modifyAt
          (Registry.modifyAt
            (Registry.modifyAt c.metadata item0.Parent.ID (replaceChildRef a b))
            a (setItemID b))
          item0.Parent.ID (unlinkChild a item0.IsDir))
        a) k =
      if k = a then none
      else Registry.load c.metadata k := by
    intro k
    by_cases hk : k = a
    · subst hk
      rw [Registry.load_eraseKey_self, if_pos rfl]
    · rw [Registry.load_eraseKey_other _ _ _ hk, if_neg hk]
      by_cases hp : k = item0.Parent.ID
      · subst hp
        rw [Registry.load_modifyAt_self,
          Registry.load_modifyAt_other _ _ _ _ hns,
          Registry.load_modifyAt_self, hpar]
        have hu2 : unlinkChild a item0.IsDir parent = parent := by
          unfold unlinkChild
          rw [if_neg]
          intro hcont2
          exact hnotmem (by simpa [childList] using hcont2)
        simp [hpval, hu2]
      · rw [Registry.load_modifyAt_other _ _ _ _ hp,
          Registry.load_modifyAt_other _ _ _ _ hk,
          Registry.load_modifyAt_other _ _ _ _ hp]
  have hc3p : Registry.load
      (Registry.eraseKey
        (Registry.modifyAt
          (Registry.modifyAt
            (Registry.modifyAt c.metadata item0.Parent.ID (replaceChildRef a b))
            a (setItemID b))
          item0.Parent.ID (unlinkChild a item0.IsDir))
        a) item0.Parent.ID = some parent := by
    rw [hload3, if_neg hns]
    exact hpar
  have hcont : (parent.children.getD []).contains b = false := by
    cases hcb : (parent.children.getD []).contains b
    · rfl
    · exfalso
      exact hbnot (by simpa [childList] using hcb)
  have hload := @insertID_link_load
    { c with metadata :=
      (Registry.eraseKey
        (Registry.modifyAt
          (Registry.modifyAt
            (Registry.modifyAt c.metadata item0.Parent.ID (replaceChildRef a b))
            a (setItemID b))
          item0.Parent.ID (unlinkChild a item0.IsDir))
        a) }
    b (setItemID b item0) parent hpid0 hpb hc3p hcont
  constructor
  · intro k
    rw [← hcc, hload k]
    by_cases hk : k = b
    · subst hk
      rw [if_pos rfl, if_pos rfl]
    · rw [if_neg hk, if_neg hk]
      by_cases hp : k = item0.Parent.ID
      · subst hp
        rw [if_pos (show item0.Parent.ID = (setItemID b item0).ParentID from rfl),
          if_neg hns, if_pos rfl]
        rfl
      · rw [if_neg (show ¬ k = (setItemID b item0).ParentID from hp), hload3]
        by_cases hk2 : k = a
        · subst hk2
          rw [if_pos rfl, if_pos rfl]
        · rw [if_neg hk2, if_neg hk2, if_neg hp]
  · intro hnd
    rw [← hcc]
    rw [insertID_keys]
    exact Registry.nodup_keys_store (Registry.nodup_keys_eraseKey
      (Registry.nodup_keys_modifyAt (Registry.nodup_keys_modifyAt
        (Registry.nodup_keys_modifyAt hnd))))

/-- `MoveID` to a fresh id, moving an item without cached children (the
ID-reassignment use case), preserves the registry invariant. -/
theorem inv_moveID {c : Cache} {a b : String} {r : Option String × Cache}
    (hInv : CacheInv c.metadata)
    (hb : Registry.load c.metadata b = none)
    (hche : ∀ it, Registry.load c.metadata a = some it → childList it = [])
    (hr : Cache.MoveID c a b = some r) :
    CacheInv r.2.metadata := by
  cases hita : Registry.load c.metadata a with
  | none =>
    rw [moveID_notfound_eq hita hb] at hr
    injection hr with hr
    subst hr
    exact hInv
  | some item0 =>
    have hns := hInv.noSelf' hita
    cases hpar : Registry.load c.metadata item0.Parent.ID with
    | none =>
      rw [moveID_crash_eq hita hpar] at hr
      cases hr
    | some parent =>
      have hr' : Cache.MoveID c a b = some (none, Cache.InsertID
          { c with metadata :=
            (Registry.eraseKey
              (Registry.modifyAt
                (Registry.modifyAt
                  (Registry.modifyAt c.metadata item0.Parent.ID (replaceChildRef a b))
                  a (setItemID b))
                item0.Parent.ID (unlinkChild a item0.IsDir))
              a) }
          b (setItemID b item0)) := moveID_found_eq hita hpar hns
      have hreq : r = (none, Cache.InsertID
          { c with metadata :=
            (Registry.eraseKey
              (Registry.modifyAt
                (Registry.modifyAt
                  (Registry.modifyAt c.metadata item0.Parent.ID (replaceChildRef a b))
                  a (setItemID b))
                item0.Parent.ID (unlinkChild a item0.IsDir))
              a) }
          b (setItemID b item0)) := by
        rw [hr'] at hr
        injection hr with h
        exact h.symm
      have hab : a ≠ b := by
        intro h
        rw [h, hb] at hita
        cases hita
      have hpb : item0.Parent.ID ≠ b := by
        intro h
        rw [h, hb] at hpar
        cases hpar
      have hndparent := hInv.childNodup' hpar
      have hnotin : a ∉ listReplaceFirst a b (childList parent) :=
        not_mem_listReplaceFirst hab hndparent
      have hbnot : b ∉ childList parent := by
        intro hmem
        obtain ⟨ch, hch2, -⟩ := linked_load hInv hpar hmem
        rw [hb] at hch2
        cases hch2
      have hche0 : childList (setItemID b item0) = [] := hche item0 hita
      have hsub0 : item0.subdir = 0 := by
        have := hInv.subdirAcc' hita
        rw [show childList item0 = [] from hche item0 hita] at this
        simpa [subdirCount] using this
      have hexA : ∀ (k : String) (it : DriveItem), Registry.load c.metadata k = some it →
          ∀ cid ∈ childList it, cid ≠ b ∧ (cid = a → k = item0.Parent.ID) := by
        intro k it hl cid hc
        constructor
        · intro hcb
          obtain ⟨ch, hch2, -⟩ := linked_load hInv hl hc
          rw [hcb, hb] at hch2
          cases hch2
        · intro hca
          exact listed_only_in_parent hInv hita hl (hca ▸ hc)
      have hmove2 : Cache.MoveID c a b = some r := hr
      subst hreq
      set cfin : Cache := Cache.InsertID
          { c with metadata :=
            (Registry.eraseKey
              (Registry.modifyAt
                (Registry.modifyAt
                  (Registry.modifyAt c.metadata item0.Parent.ID (replaceChildRef a b))
                  a (setItemID b))
                item0.Parent.ID (unlinkChild a item0.IsDir))
              a) }
          b (setItemID b item0) with hcfin
      show CacheInv cfin.metadata
      by_cases hL1 : a ∈ childList parent ∨ item0.Parent.ID = ""
      · obtain ⟨hload, hkeys⟩ := moveID_result_load hita hb hpar hns hnotin hL1 hr'
        have hFpk : ∀ cid : String, cid ≠ a → cid ≠ b →
            parentKeyOf cfin.metadata cid =
              parentKeyOf c.metadata cid := by
          intro cid hca hcb
          unfold parentKeyOf
          rw [hload, if_neg hcb, if_neg hca]
          by_cases hcp : cid = item0.Parent.ID
          · rw [if_pos hcp, hcp, hpar]
            rfl
          · rw [if_neg hcp]
        have hFdir : ∀ cid : String, cid ≠ a → cid ≠ b →
            dirAt cfin.metadata cid =
              dirAt c.metadata cid := by
          intro cid hca hcb
          unfold dirAt
          rw [hload, if_neg hcb, if_neg hca]
          by_cases hcp : cid = item0.Parent.ID
          · rw [if_pos hcp, hcp, hpar]
            rfl
          · rw [if_neg hcp]
        have hFdirb : dirAt cfin.metadata b =
            dirAt c.metadata a := by
          unfold dirAt
          rw [hload, if_pos rfl, hita]
          rfl
        refine ⟨hkeys hInv.nodupKeys, ?_, ?_, ?_, ?_, ?_⟩
        · intro k _ it hl
          rw [hload] at hl
          by_cases hk : k = b
          · rw [if_pos hk] at hl
            cases hl
            exact hk.symm
          · rw [if_neg hk] at hl
            by_cases hk2 : k = a
            · rw [if_pos hk2] at hl; cases hl
            · rw [if_neg hk2] at hl
              by_cases hp : k = item0.Parent.ID
              · rw [if_pos hp] at hl
                cases hl
                exact (hInv.keyCons' hpar).trans hp.symm
              · rw [if_neg hp] at hl
                exact hInv.keyCons' hl
        · intro k _ it hl cid hc
          rw [hload] at hl
          by_cases hk : k = b
          · rw [if_pos hk] at hl
            cases hl
            rw [hche0] at hc
            cases hc
          · rw [if_neg hk] at hl
            by_cases hk2 : k = a
            · rw [if_pos hk2] at hl; cases hl
            · rw [if_neg hk2] at hl
              by_cases hp : k = item0.Parent.ID
              · rw [if_pos hp] at hl
                cases hl
                rw [childList_replaceChildRef] at hc
                rcases mem_of_mem_listReplaceFirst hc with hcb | hcm
                · subst hcb
                  unfold parentKeyOf
                  rw [hload, if_pos rfl]
                  simp [setItemID, hp]
                · have hca : cid ≠ a := by
                    intro hcaa
                    exact hnotin (hcaa ▸ hc)
                  have hcb := (hexA _ _ hpar cid hcm).1
                  rw [hFpk cid hca hcb, hp]
                  exact hInv.linked' hpar hcm
              · rw [if_neg hp] at hl
                have hfacts := hexA _ _ hl cid hc
                have hca : cid ≠ a := by
                  intro hcaa
                  exact hp (hfacts.2 hcaa)
                rw [hFpk cid hca hfacts.1]
                exact hInv.linked' hl hc
        · intro k _ it hl
          rw [hload] at hl
          by_cases hk : k = b
          · rw [if_pos hk] at hl
            cases hl
            rw [hche0]
            exact List.nodup_nil
          · rw [if_neg hk] at hl
            by_cases hk2 : k = a
            · rw [if_pos hk2] at hl; cases hl
            · rw [if_neg hk2] at hl
              by_cases hp : k = item0.Parent.ID
              · rw [if_pos hp] at hl
                cases hl
                rw [childList_replaceChildRef]
                exact nodup_listReplaceFirst hndparent hbnot
              · rw [if_neg hp] at hl
                exact hInv.childNodup' hl
        · intro k _ it hl
          rw [hload] at hl
          by_cases hk : k = b
          · rw [if_pos hk] at hl
            cases hl
            rw [hche0]
            simpa [subdirCount] using hsub0
          · rw [if_neg hk] at hl
            by_cases hk2 : k = a
            · rw [if_pos hk2] at hl; cases hl
            · rw [if_neg hk2] at hl
              by_cases hp : k = item0.Parent.ID
              · rw [if_pos hp] at hl
                cases hl
                rw [childList_replaceChildRef]
                have hcount := subdirCount_replaceFirst hndparent hFdirb
                  (fun cid hcm hca => hFdir cid hca (hexA _ _ hpar cid hcm).1)
                rw [hcount]
                exact hInv.subdirAcc' hpar
              · rw [if_neg hp] at hl
                rw [hInv.subdirAcc' hl]
                refine (subdirCount_congr ?_).symm
                intro cid hc
                have hfacts := hexA _ _ hl cid hc
                have hca : cid ≠ a := by
                  intro hcaa
                  exact hp (hfacts.2 hcaa)
                exact hFdir cid hca hfacts.1
        · intro k _ it hl
          rw [hload] at hl
          by_cases hk : k = b
          · rw [if_pos hk] at hl
            cases hl
            show item0.Parent.ID ≠ k
            rw [hk]
            exact hpb
          · rw [if_neg hk] at hl
            by_cases hk2 : k = a
            · rw [if_pos hk2] at hl; cases hl
            · rw [if_neg hk2] at hl
              by_cases hp : k = item0.Parent.ID
              · rw [if_pos hp] at hl
                cases hl
                show parent.Parent.ID ≠ k
                rw [hp]
                exact hInv.noSelf' hpar
              · rw [if_neg hp] at hl
                exact hInv.noSelf' hl
      · push_neg at hL1
        obtain ⟨hnotmem, hpid0⟩ := hL1
        obtain ⟨hload, hkeys⟩ := moveID_result_load_append hita hb hpar hns
          hnotmem hbnot hpid0 hr'
        have hFpk : ∀ cid : String, cid ≠ a → cid ≠ b →
            parentKeyOf cfin.metadata cid =
              parentKeyOf c.metadata cid := by
          intro cid hca hcb
          unfold parentKeyOf
          rw [hload, if_neg hcb, if_neg hca]
          by_cases hcp : cid = item0.Parent.ID
          · rw [if_pos hcp, hcp, hpar]
            rfl
          · rw [if_neg hcp]
        have hFdir : ∀ cid : String, cid ≠ a → cid ≠ b →
            dirAt cfin.metadata cid =
              dirAt c.metadata cid := by
          intro cid hca hcb
          unfold dirAt
          rw [hload, if_neg hcb, if_neg hca]
          by_cases hcp : cid = item0.Parent.ID
          · rw [if_pos hcp, hcp, hpar]
            rfl
          · rw [if_neg hcp]
        have hFdirb : dirAt cfin.metadata b =
            dirAt c.metadata a := by
          unfold dirAt
          rw [hload, if_pos rfl, hita]
          rfl
        refine ⟨hkeys hInv.nodupKeys, ?_, ?_, ?_, ?_, ?_⟩
        · intro k _ it hl
          rw [hload] at hl
          by_cases hk : k = b
          · rw [if_pos hk] at hl
            cases hl
            exact hk.symm
          · rw [if_neg hk] at hl
            by_cases hk2 : k = a
            · rw [if_pos hk2] at hl; cases hl
            · rw [if_neg hk2] at hl
              by_cases hp : k = item0.Parent.ID
              · rw [if_pos hp] at hl
                cases hl
                exact (hInv.keyCons' hpar).trans hp.symm
              · rw [if_neg hp] at hl
                exact hInv.keyCons' hl
        · intro k _ it hl cid hc
          rw [hload] at hl
          by_cases hk : k = b
          · rw [if_pos hk] at hl
            cases hl
            rw [show childList { setItemID b item0 with Parent := ⟨parent.IDInternal⟩ } =
              childList item0 from rfl] at hc
            rw [show childList item0 = [] from hche item0 hita] at hc
            cases hc
          · rw [if_neg hk] at hl
            by_cases hk2 : k = a
            · rw [if_pos hk2] at hl; cases hl
            · rw [if_neg hk2] at hl
              by_cases hp : k = item0.Parent.ID
              · rw [if_pos hp] at hl
                cases hl
                simp only [childList, Option.getD_some] at hc
                rcases List.mem_append.1 hc with hcm | hcb
                · have hcm' : cid ∈ childList parent := hcm
                  have hca : cid ≠ a := fun hcaa => hnotmem (hcaa ▸ hcm')
                  have hcb2 := (hexA _ _ hpar cid hcm').1
                  rw [hFpk cid hca hcb2, hp]
                  exact hInv.linked' hpar hcm'
                · simp only [List.mem_singleton] at hcb
                  subst hcb
                  unfold parentKeyOf
                  rw [hload, if_pos rfl]
                  simp only [Option.map_some]
                  rw [hp]
                  show some parent.IDInternal = some item0.Parent.ID
                  rw [hInv.keyCons' hpar]
              · rw [if_neg hp] at hl
                have hfacts := hexA _ _ hl cid hc
                have hca : cid ≠ a := by
                  intro hcaa
                  exact hp (hfacts.2 hcaa)
                rw [hFpk cid hca hfacts.1]
                exact hInv.linked' hl hc
        · intro k _ it hl
          rw [hload] at hl
          by_cases hk : k = b
          · rw [if_pos hk] at hl
            cases hl
            rw [show childList { setItemID b item0 with Parent := ⟨parent.IDInternal⟩ } =
              childList item0 from rfl, hche item0 hita]
            exact List.nodup_nil
          · rw [if_neg hk] at hl
            by_cases hk2 : k = a
            · rw [if_pos hk2] at hl; cases hl
            · rw [if_neg hk2] at hl
              by_cases hp : k = item0.Parent.ID
              · rw [if_pos hp] at hl
                cases hl
                simp only [childList, Option.getD_some]
                rw [List.nodup_append]
                exact ⟨hndparent, List.nodup_singleton _, by
                  intro x hx hx2
                  simp only [List.mem_singleton] at hx2
                  subst hx2
                  exact hbnot hx⟩
              · rw [if_neg hp] at hl
                exact hInv.childNodup' hl
        · intro k _ it hl
          rw [hload] at hl
          by_cases hk : k = b
          · rw [if_pos hk] at hl
            cases hl
            rw [show childList { setItemID b item0 with Parent := ⟨parent.IDInternal⟩ } =
              childList item0 from rfl, hche item0 hita]
            simpa [subdirCount] using hsub0
          · rw [if_neg hk] at hl
            by_cases hk2 : k = a
            · rw [if_pos hk2] at hl; cases hl
            · rw [if_neg hk2] at hl
              by_cases hp : k = item0.Parent.ID
              · rw [if_pos hp] at hl
                cases hl
                have hda : dirAt c.metadata a = item0.IsDir := by
                  unfold dirAt
                  rw [hita]
                have hdb : dirAt cfin.metadata b = item0.IsDir := hFdirb.trans hda
                have hcount : List.filter (fun cid => dirAt cfin.metadata cid)
                    (childList parent) =
                    List.filter (fun cid => dirAt c.metadata cid)
                    (childList parent) := by
                  apply List.filter_congr
                  intro cid hcm
                  exact hFdir cid (fun hcaa => hnotmem (hcaa ▸ hcm))
                    (hexA _ _ hpar cid hcm).1
                have hacc := hInv.subdirAcc' hpar
                show (if item0.IsDir then parent.subdir + 1 else parent.subdir) =
                  subdirCount cfin.metadata (childList parent ++ [b])
                unfold subdirCount
                rw [List.filter_append, hcount, List.length_append]
                unfold subdirCount at hacc
                rw [← hacc]
                simp only [List.filter_cons, List.filter_nil, hdb]
                by_cases hd : item0.IsDir <;> simp [hd]
              · rw [if_neg hp] at hl
                rw [hInv.subdirAcc' hl]
                refine (subdirCount_congr ?_).symm
                intro cid hc
                have hfacts := hexA _ _ hl cid hc
                have hca : cid ≠ a := by
                  intro hcaa
                  exact hp (hfacts.2 hcaa)
                exact hFdir cid hca hfacts.1
        · intro k _ it hl
          rw [hload] at hl
          by_cases hk : k = b
          · rw [if_pos hk] at hl
            cases hl
            show parent.IDInternal ≠ k
            rw [hk, hInv.keyCons' hpar]
            exact hpb
          · rw [if_neg hk] at hl
            by_cases hk2 : k = a
            · rw [if_pos hk2] at hl; cases hl
            · rw [if_neg hk2] at hl
              by_cases hp : k = item0.Parent.ID
              · rw [if_pos hp] at hl
                cases hl
                show parent.Parent.ID ≠ k
                rw [hp]
                exact hInv.noSelf' hpar
              · rw [if_neg hp] at hl
                exact hInv.noSelf' hl

/-- One well-formed step preserves the registry invariant. -/
theorem inv_stepOp {c c' : Cache} {op : Op}
    (hInv : CacheInv c.metadata) (h : stepOp c op = some c') :
    CacheInv c'.metadata := by
  unfold stepOp at h
  split at h
  · next hwf =>
    cases op with
    | insertID id item =>
      obtain ⟨h1, h2, h3, h4, h5, h6⟩ := hwf
      simp only [applyOp] at h
      injection h with h
      subst h
      exact inv_insertID hInv h1 h2 h3 h4 h5 h6
    | deleteID id =>
      exact inv_deleteID hInv h
    | moveID a b =>
      obtain ⟨h1, h2⟩ := hwf
      simp only [applyOp] at h
      cases hm : Cache.MoveID c a b with
      | none =>
        rw [hm] at h
        cases h
      | some r =>
        rw [hm] at h
        injection h with h
        subst h
        exact inv_moveID hInv h1 h2 hm
    | getChildrenID id auth fetched =>
      obtain ⟨h1, h2⟩ := hwf
      simp only [applyOp] at h
      injection h with h
      subst h
      exact inv_getChildrenID hInv h1 h2
  · cases h

/-- Running any well-formed operation sequence preserves the registry
invariant. -/
theorem inv_runOps {c c' : Cache} {ops : List Op}
    (hInv : CacheInv c.metadata) (h : runOps c ops = some c') :
    CacheInv c'.metadata := by
  induction ops generalizing c with
  | nil =>
    unfold runOps at h
    injection h with h
    subst h
    exact hInv
  | cons op ops ih =>
    unfold runOps at h
    split at h
    · cases h
    · next c1 hstep =>
      exact ih (inv_stepOp hInv hstep) h

theorem unlinkChild_children_ne {id : String} {d : Bool} {p : DriveItem}
    (h : p.children ≠ none) : (unlinkChild id d p).children ≠ none := by
  unfold unlinkChild
  split
  · intro hc
    cases hc
  · exact h

theorem unlinkChild_dirFlag (id : String) (d : Bool) (p : DriveItem) :
    (unlinkChild id d p).dirFlag = p.dirFlag := by
  unfold unlinkChild
  split <;> rfl

theorem replaceChildRef_children_ne {a b : String} {p : DriveItem}
    (h : p.children ≠ none) : (replaceChildRef a b p).children ≠ none := by
  have hrc : (replaceChildRef a b p).children =
      Option.map (listReplaceFirst a b) p.children := rfl
  rw [hrc]
  cases hc : p.children with
  | none => exact absurd hc h
  | some l => simp

/-- One well-formed step never turns a populated `children` field back to
the unpopulated sentinel, as long as the operation does not delete the
item or move it away from its id; the directory flag is also untouched. -/
theorem populated_stepOp {c c' : Cache} {op : Op} {id : String} {it : DriveItem}
    (hInv : CacheInv c.metadata)
    (hstep : stepOp c op = some c')
    (hit : Registry.load c.metadata id = some it)
    (hch : it.children ≠ none)
    (hop1 : op ≠ Op.deleteID id) (hop2 : ∀ b, op ≠ Op.moveID id b) :
    ∃ it', Registry.load c'.metadata id = some it' ∧ it'.children ≠ none ∧
      it'.dirFlag = it.dirFlag := by
  unfold stepOp at hstep
  split at hstep
  · next hwf =>
    cases op with
    | insertID j item =>
      obtain ⟨h1, h2, h3, h4, h5, h6⟩ := hwf
      simp only [applyOp] at hstep
      injection hstep with hstep
      subst hstep
      have hji : id ≠ j := by
        intro he
        rw [he, h2] at hit
        cases hit
      by_cases hpe : item.ParentID = ""
      · rw [insertID_root_metadata hpe, Registry.load_store_other _ _ _ _ hji]
        exact ⟨it, hit, hch, rfl⟩
      · have hpi : item.ParentID ≠ j := h6
        cases hpl : Registry.load c.metadata item.ParentID with
        | none =>
          rw [insertID_orphan_metadata hpe
            (by rw [Registry.load_store_other _ _ _ _ hpi]; exact hpl),
            Registry.load_store_other _ _ _ _ hji]
          exact ⟨it, hit, hch, rfl⟩
        | some parent =>
          cases hdup : (parent.children.getD []).contains j with
          | true =>
            rw [insertID_dup_metadata hpe
              (by rw [Registry.load_store_other _ _ _ _ hpi]; exact hpl) hdup,
              Registry.load_store_other _ _ _ _ hji]
            exact ⟨it, hit, hch, rfl⟩
          | false =>
            rw [insertID_link_load hpe hpi hpl hdup id]
            rw [if_neg hji]
            by_cases hidp : id = item.ParentID
            · have hpeq : parent = it := by
                rw [hidp] at hit
                rw [hit] at hpl
                injection hpl with h9
                exact h9.symm
              rw [if_pos hidp]
              refine ⟨_, rfl, ?_, ?_⟩
              · intro hc
                cases hc
              · show parent.dirFlag = it.dirFlag
                rw [hpeq]
            · rw [if_neg hidp]
              exact ⟨it, hit, hch, rfl⟩
    | deleteID j =>
      have hji : id ≠ j := by
        intro he
        exact hop1 (by rw [he])
      simp only [applyOp] at hstep
      cases hjl : Registry.load c.metadata j with
      | none =>
        rw [deleteID_eq_absent hjl] at hstep
        injection hstep with hstep
        subst hstep
        rw [Registry.load_eraseKey_other _ _ _ hji]
        exact ⟨it, hit, hch, rfl⟩
      | some itj =>
        cases hpl : Registry.load c.metadata itj.ParentID with
        | none =>
          rw [deleteID_eq_crash hjl hpl] at hstep
          cases hstep
        | some par =>
          rw [deleteID_eq_found hjl hpl] at hstep
          injection hstep with hstep
          subst hstep
          rw [Registry.load_eraseKey_other _ _ _ hji]
          by_cases hidp : id = itj.ParentID
          · have hpeq : par = it := by
              rw [hidp] at hit
              rw [hit] at hpl
              injection hpl with h9
              exact h9.symm
            rw [hidp, Registry.load_modifyAt_self, hpl]
            exact ⟨_, rfl, unlinkChild_children_ne (hpeq ▸ hch),
              (unlinkChild_dirFlag _ _ _).trans (by rw [hpeq])⟩
          · rw [Registry.load_modifyAt_other _ _ _ _ hidp]
            exact ⟨it, hit, hch, rfl⟩
    | moveID a b =>
      have hai : a ≠ id := by
        intro he
        exact hop2 b (by rw [he])
      obtain ⟨hbf, hche⟩ := hwf
      simp only [applyOp] at hstep
      cases hm : Cache.MoveID c a b with
      | none =>
        rw [hm] at hstep
        cases hstep
      | some r =>
        rw [hm] at hstep
        injection hstep with hstep
        subst hstep
        have hidb : id ≠ b := by
          intro he
          rw [he, hbf] at hit
          cases hit
        cases hal : Registry.load c.metadata a with
        | none =>
          rw [moveID_notfound_eq hal hbf] at hm
          injection hm with hm
          subst hm
          exact ⟨it, hit, hch, rfl⟩
        | some item0 =>
          have hns := hInv.noSelf' hal
          cases hpl : Registry.load c.metadata item0.Parent.ID with
          | none =>
            rw [moveID_crash_eq hal hpl] at hm
            cases hm
          | some parent =>
            have hr' := @moveID_found_eq c a b item0 parent hal hpl hns
            rw [hr'] at hm
            injection hm with hm
            subst hm
            have hab : a ≠ b := by
              intro h
              rw [h, hbf] at hal
              cases hal
            have hndparent := hInv.childNodup' hpl
            have hnotin : a ∉ listReplaceFirst a b (childList parent) :=
              not_mem_listReplaceFirst hab hndparent
            have hbnot : b ∉ childList parent := by
              intro hmem
              obtain ⟨ch, hch2, -⟩ := linked_load hInv hpl hmem
              rw [hbf] at hch2
              cases hch2
            by_cases hL1 : a ∈ childList parent ∨ item0.Parent.ID = ""
            · obtain ⟨hload, -⟩ := moveID_result_load hal hbf hpl hns hnotin hL1 hr'
              rw [hload id, if_neg hidb, if_neg (Ne.symm hai)]
              by_cases hidp : id = item0.Parent.ID
              · have hpeq : parent = it := by
                  rw [hidp] at hit
                  rw [hit] at hpl
                  injection hpl with h9
                  exact h9.symm
                rw [if_pos hidp]
                exact ⟨_, rfl, replaceChildRef_children_ne (hpeq ▸ hch),
                  show parent.dirFlag = it.dirFlag from by rw [hpeq]⟩
              · rw [if_neg hidp]
                exact ⟨it, hit, hch, rfl⟩
            · push_neg at hL1
              obtain ⟨hnotmem, hpid0⟩ := hL1
              obtain ⟨hload, -⟩ := moveID_result_load_append hal hbf hpl hns
                hnotmem hbnot hpid0 hr'
              rw [hload id, if_neg hidb, if_neg (Ne.symm hai)]
              by_cases hidp : id = item0.Parent.ID
              · have hpeq : parent = it := by
                  rw [hidp] at hit
                  rw [hit] at hpl
                  injection hpl with h9
                  exact h9.symm
                rw [if_pos hidp]
                refine ⟨_, rfl, ?_, show parent.dirFlag = it.dirFlag from by rw [hpeq]⟩
                intro hc
                cases hc
              · rw [if_neg hidp]
                exact ⟨it, hit, hch, rfl⟩
    | getChildrenID j auth fetched =>
      obtain ⟨hnd, hwf2⟩ := hwf
      simp only [applyOp] at hstep
      injection hstep with hstep
      subst hstep
      cases hjl : Registry.load c.metadata j with
      | none =>
        rw [getChildrenID_absent hjl]
        exact ⟨it, hit, hch, rfl⟩
      | some itj =>
        cases hdir : itj.IsDir with
        | false =>
          rw [getChildrenID_notdir hjl hdir]
          exact ⟨it, hit, hch, rfl⟩
        | true =>
          cases hchj : itj.children with
          | some ids =>
            rw [getChildrenID_cached hjl hdir hchj]
            exact ⟨it, hit, hch, rfl⟩
          | none =>
            cases hau : authOK auth with
            | false =>
              rw [getChildrenID_noauth hjl hdir hchj hau]
              exact ⟨it, hit, hch, rfl⟩
            | true =>
              rw [getChildrenID_fetch hjl hdir hchj hau]
              have hni : ∀ ch ∈ fetched, ch.IDInternal ≠ j :=
                fun ch hm => ((hwf2 ch hm).2.2.2.1)
              have hload := fetchFold_load fetched hni hnd
                (Registry.modifyAt c.metadata j
                  (fun x => { x with children := some [] })) [] id
                (by
                  intro it0 hl0
                  rw [Registry.load_modifyAt_self, hjl] at hl0
                  injection hl0 with hl0
                  subst hl0
                  intro hc
                  cases hc)
              rw [hload]
              by_cases hidj : id = j
              · have hpeq : itj = it := by
                  rw [hidj] at hit
                  rw [hit] at hjl
                  injection hjl with h9
                  exact h9.symm
                rw [if_pos hidj, Registry.load_modifyAt_self, hjl]
                refine ⟨_, rfl, ?_, show itj.dirFlag = it.dirFlag from by rw [hpeq]⟩
                intro hc
                cases hc
              · rw [if_neg hidj]
                cases hfind : fetched.find? (fun ch => ch.IDInternal == id) with
                | some ch =>
                  have hmem := List.mem_of_find?_eq_some hfind
                  have hcid : ch.IDInternal = id := by
                    have := List.find?_some hfind
                    simpa using this
                  have := (hwf2 ch hmem).2.2.2.2
                  rw [hcid, hit] at this
                  cases this
                | none =>
                  rw [Registry.load_modifyAt_other _ _ _ _ hidj]
                  exact ⟨it, hit, hch, rfl⟩
  · cases hstep

/-- Along any well-formed run that neither deletes an item's id nor moves
it away, a populated `children` field stays populated and the directory
flag is preserved. -/
theorem populated_runOps {c c' : Cache} {ops : List Op} {id : String}
    {it : DriveItem}
    (hInv : CacheInv c.metadata)
    (hrun : runOps c ops = some c')
    (hit : Registry.load c.metadata id = some it)
    (hch : it.children ≠ none)
    (hops : ∀ op ∈ ops, op ≠ Op.deleteID id ∧ ∀ b, op ≠ Op.moveID id b) :
    ∃ it', Registry.load c'.metadata id = some it' ∧ it'.children ≠ none ∧
      it'.dirFlag = it.dirFlag := by
  induction ops generalizing c it with
  | nil =>
    unfold runOps at hrun
    injection hrun with h
    subst h
    exact ⟨it, hit, hch, rfl⟩
  | cons op ops ih =>
    unfold runOps at hrun
    split at hrun
    · cases hrun
    · next c1 hstep =>
      obtain ⟨hop1, hop2⟩ := hops op (List.mem_cons_self _ _)
      obtain ⟨it1, hit1, hch1, hdf1⟩ := populated_stepOp hInv hstep hit hch hop1 hop2
      obtain ⟨it2, hit2, hch2, hdf2⟩ := ih (inv_stepOp hInv hstep) hrun hit1 hch1
        (fun op' hm => hops op' (List.mem_cons_of_mem _ hm))
      exact ⟨it2, hit2, hch2, hdf2.trans hdf1⟩

instance (m : Registry) : Decidable (CacheInv m) :=
  decidable_of_iff
    ((Registry.keys m).Nodup ∧
     (∀ k ∈ Registry.keys m, ∀ it, Registry.load m k = some it →
        it.IDInternal = k) ∧
     (∀ k ∈ Registry.keys m, ∀ it, Registry.load m k = some it →
        ∀ cid ∈ childList it, parentKeyOf m cid = some k) ∧
     (∀ k ∈ Registry.keys m, ∀ it, Registry.load m k = some it →
        (childList it).Nodup) ∧
     (∀ k ∈ Registry.keys m, ∀ it, Registry.load m k = some it →
        it.subdir = subdirCount m (childList it)) ∧
     (∀ k ∈ Registry.keys m, ∀ it, Registry.load m k = some it →
        it.Parent.ID ≠ k))
    ⟨fun h => ⟨h.1, h.2.1, h.2.2.1, h.2.2.2.1, h.2.2.2.2.1, h.2.2.2.2.2⟩,
     fun h => ⟨h.nodupKeys, h.keyCons, h.linked, h.childNodup, h.subdirAcc, h.noSelf⟩⟩

/-- Operation sequences exactly as the claim quantifies them: no
well-formedness screen on the arguments, crashes still propagate. -/
def runOpsRaw : Cache → List Op → Option Cache
  | c, [] => some c
  | c, op :: ops =>
    match applyOp c op with
    | none => none
    | some c' => runOpsRaw c' ops

/-- Whether an operation removes the registry entry at `id` (deletes it,
or moves it away to a new id). -/
def removesId (id : String) : Op → Bool
  | .deleteID j => j == id
  | .moveID a _ => a == id
  | _ => false

/-- Modelled from the spec: `Delete` as the spec states it -- resolve the
(lowercased) path with the caller's credentials, remote calls permitted,
and delegate to `DeleteID` on the resolved item's id. -/
def deleteSpec (c : Cache) (key : String) (auth : Option String)
    (remote : String → List DriveItem) : Option Cache :=
  let r := Cache.Get c (lowerStr key) auth remote
  match r.2.1 with
  | some item => Cache.DeleteID r.2.2.1 item.ID
  | none => some r.2.2.1

theorem not_mem_childList_unlinkChild {id : String} {d : Bool} {p : DriveItem}
    (hnd : (childList p).Nodup) : id ∉ childList (unlinkChild id d p) := by
  unfold unlinkChild
  split
  · next hcont =>
    show id ∉ (p.children.getD []).erase id
    exact hnd.not_mem_erase
  · next hcont =>
    intro hm
    exact hcont (by simpa [childList] using hm)

/-- After a completed `DeleteID`, the id resolves to nothing and no
surviving entry lists it among its children. -/
theorem deleteID_unlisted {c c' : Cache} {id : String}
    (hInv : CacheInv c.metadata) (h : Cache.DeleteID c id = some c') :
    Registry.load c'.metadata id = none ∧
    ∀ k it', Registry.load c'.metadata k = some it' → id ∉ childList it' := by
  cases hit : Registry.load c.metadata id with
  | none =>
    rw [deleteID_eq_absent hit] at h
    injection h with h
    subst h
    refine ⟨Registry.load_eraseKey_self _ _, ?_⟩
    intro k it' hl hm
    by_cases hk : k = id
    · rw [hk, Registry.load_eraseKey_self] at hl
      cases hl
    · rw [Registry.load_eraseKey_other _ _ _ hk] at hl
      obtain ⟨ch, hch, -⟩ := linked_load hInv hl hm
      rw [hit] at hch
      cases hch
  | some item =>
    cases hpar : Registry.load c.metadata item.ParentID with
    | none =>
      rw [deleteID_eq_crash hit hpar] at h
      cases h
    | some parent =>
      rw [deleteID_eq_found hit hpar] at h
      injection h with h
      subst h
      refine ⟨Registry.load_eraseKey_self _ _, ?_⟩
      intro k it' hl hm
      by_cases hk : k = id
      · rw [hk, Registry.load_eraseKey_self] at hl
        cases hl
      · rw [Registry.load_eraseKey_other _ _ _ hk] at hl
        by_cases hp : k = item.ParentID
        · rw [hp, Registry.load_modifyAt_self, hpar] at hl
          injection hl with hl
          subst hl
          exact not_mem_childList_unlinkChild (hInv.childNodup' hpar) hm
        · rw [Registry.load_modifyAt_other _ _ _ _ hp] at hl
          exact hp (listed_only_in_parent hInv hit hl hm)

/-- With `nil` credentials, `GetChildrenID` never touches the registry
and never issues a remote call. -/
theorem getChildrenID_nil_auth (c : Cache) (id : String)
    (remote : String → List DriveItem) :
    (Cache.GetChildrenID c id none remote).2.2.1 = c ∧
    (Cache.GetChildrenID c id none remote).2.2.2 = false := by
  cases hit : Registry.load c.metadata id with
  | none => rw [getChildrenID_absent hit]; exact ⟨rfl, rfl⟩
  | some item =>
    cases hdir : item.IsDir with
    | false => rw [getChildrenID_notdir hit hdir]; exact ⟨rfl, rfl⟩
    | true =>
      cases hch : item.children with
      | some ids => rw [getChildrenID_cached hit hdir hch]; exact ⟨rfl, rfl⟩
      | none =>
        rw [getChildrenID_noauth hit hdir hch (show authOK none = false from rfl)]
        exact ⟨rfl, rfl⟩

/-- The path-walk loop with `nil` credentials: the cache comes back
untouched and the number of remote fetches is zero. -/
theorem getLoop_nil_auth (remote : String → List DriveItem) :
    ∀ (segs : List String) (c : Cache) (lastID : String)
      (prev : Option DriveItem) (seen : List String),
      (getLoop none remote c segs lastID prev seen).2.2.1 = c ∧
      (getLoop none remote c segs lastID prev seen).2.2.2 = 0 := by
  intro segs
  induction segs with
  | nil => intro c lastID prev seen; exact ⟨rfl, rfl⟩
  | cons seg rest ih =>
    intro c lastID prev seen
    obtain ⟨hc, hb⟩ := getChildrenID_nil_auth c lastID remote
    simp only [getLoop]
    rw [hb]
    cases hr1 : (Cache.GetChildrenID c lastID none remote).1 with
    | some e =>
      simp only [hr1]
      exact ⟨hc, rfl⟩
    | none =>
      simp only [hr1]
      cases hseg : Registry.load (Cache.GetChildrenID c lastID none remote).2.1 seg with
      | none =>
        simp only [hseg]
        exact ⟨hc, rfl⟩
      | some item =>
        simp only [hseg]
        obtain ⟨hc2, hn2⟩ := ih (Cache.GetChildrenID c lastID none remote).2.2.1
          item.ID (some item) (seen ++ [seg])
        rw [hn2]
        exact ⟨hc2.trans hc, rfl⟩

/-- `Get` with `nil` credentials leaves the cache untouched and performs
zero remote fetches. -/
theorem get_nil_auth (c : Cache) (path : String)
    (remote : String → List DriveItem) :
    (Cache.Get c path none remote).2.2.1 = c ∧
    (Cache.Get c path none remote).2.2.2 = 0 := by
  unfold Cache.Get
  by_cases hp : path = "/"
  · rw [if_pos hp]
    exact ⟨rfl, rfl⟩
  · rw [if_neg hp]
    exact getLoop_nil_auth remote _ c _ none []

/-- A small concrete drive used by witnesses and counterexamples: a root
directory holding one subdirectory `docs` which holds one file. -/
def rootFix : DriveItem :=
  { IDInternal := "r", NameInternal := "root", Parent := ⟨""⟩, dirFlag := true,
    children := some ["a"], subdir := 1, Deleted := false }

def dirA : DriveItem :=
  { IDInternal := "a", NameInternal := "docs", Parent := ⟨"r"⟩, dirFlag := true,
    children := some ["b"], subdir := 0, Deleted := false }

def fileB : DriveItem :=
  { IDInternal := "b", NameInternal := "File.txt", Parent := ⟨"a"⟩,
    dirFlag := false, children := none, subdir := 0, Deleted := false }

def cacheFull : Cache :=
  { metadata := [("r", rootFix), ("a", dirA), ("b", fileB)],
    root := "r", deltaLink := "" }

/-- The same drive before `docs` was ever listed: its `children` is still
the unpopulated sentinel, the file exists only on the remote. -/
def dirA0 : DriveItem := { dirA with children := none, subdir := 0 }

def cacheCold : Cache :=
  { metadata := [("r", rootFix), ("a", dirA0)], root := "r", deltaLink := "" }

def remFix : String → List DriveItem := fun id => if id = "a" then [fileB] else []

/-- A root-only drive for the operation-sequence counterexample. -/
def rootOnly : DriveItem :=
  { IDInternal := "r", NameInternal := "root", Parent := ⟨""⟩, dirFlag := true,
    children := some [], subdir := 0, Deleted := false }

def cacheRoot : Cache :=
  { metadata := [("r", rootOnly)], root := "r", deltaLink := "" }

def xDir : DriveItem :=
  { IDInternal := "x", NameInternal := "x", Parent := ⟨"r"⟩, dirFlag := true,
    children := none, subdir := 0, Deleted := false }

def xFile : DriveItem := { xDir with dirFlag := false }

/-- C1: as written the claim is false -- a tombstone for a cached item is
skipped whenever the delta record's parent reference is not itself cached,
leaving the stale entry behind.  This is the amended statement: when the
record's parent is cached, `applyDelta` removes the item from the registry
and from every surviving child list. -/
theorem C1_tombstone_removes {c c' : Cache} {rec : DriveItem}
    (hInv : CacheInv c.metadata)
    (hdel : rec.Deleted = true)
    ( _hknown : (Registry.load c.metadata rec.ID).isSome)
    (hrp : (Registry.load c.metadata rec.ParentID).isSome)
    (happ : Cache.applyDelta c rec = some c') :
    Registry.load c'.metadata rec.ID = none ∧
    ∀ k it', Registry.load c'.metadata k = some it' → rec.ID ∉ childList it' := by
  unfold Cache.applyDelta at happ
  split at happ
  · next heq =>
    rw [heq] at hrp
    cases hrp
  · rw [hdel] at happ
    simp only [if_true] at happ
    exact deleteID_unlisted hInv happ

def recDel : DriveItem := { fileB with Deleted := true }

def c1res : Cache :=
  match Cache.applyDelta cacheFull recDel with
  | some c => c
  | none => cacheFull

theorem C1_witness : Registry.load c1res.metadata recDel.ID = none :=
  (C1_tombstone_removes (by decide) (by decide) (by decide) (by decide)
    (show Cache.applyDelta cacheFull recDel = some c1res by decide)).1

def recOrphanDel : DriveItem := { fileB with Parent := ⟨"gone"⟩, Deleted := true }

/-- C1 counterexample: a tombstone (`Deleted` set) for the cached file
`b`, whose record carries a parent id the cache does not hold, is skipped
by `applyDelta`: the call succeeds yet the item is still registered. -/
theorem C1_counterexample :
    recOrphanDel.Deleted = true ∧
    (Registry.load cacheFull.metadata recOrphanDel.ID).isSome = true ∧
    Cache.applyDelta cacheFull recOrphanDel = some cacheFull ∧
    Registry.load cacheFull.metadata recOrphanDel.ID ≠ none := by decide

/-- C2: as written (over arbitrary argument values) the claim is false;
this is the amended statement: starting from a registry satisfying the
structural invariant, any sequence of well-formed `InsertID`, `DeleteID`,
`MoveID` and `GetChildrenID` operations that completes leaves every
item's `subdir` equal to the number of its listed children that resolve
to directories. -/
theorem C2_subdir_accuracy {c c' : Cache} {ops : List Op}
    (hInv : CacheInv c.metadata) (hrun : runOps c ops = some c') :
    ∀ k p, Registry.load c'.metadata k = some p →
      p.subdir = subdirCount c'.metadata (childList p) := by
  intro k p hl
  exact (inv_runOps hInv hrun).subdirAcc' hl

def c2res : Cache :=
  match runOps cacheFull [Op.insertID "x" xDir] with
  | some c => c
  | none => cacheFull

def root2W : DriveItem := { rootFix with children := some ["a", "x"], subdir := 2 }

theorem C2_witness :
    root2W.subdir = subdirCount c2res.metadata (childList root2W) :=
  C2_subdir_accuracy (by decide)
    (show runOps cacheFull [Op.insertID "x" xDir] = some c2res by decide)
    "r" root2W (by decide)

/-- C2 counterexample: from an invariant-satisfying root-only cache, two
raw `InsertID` calls under the same id (first a directory, then a file
overwriting it) leave the root with `subdir = 1` while its single listed
child now resolves to a file: the claim fails for unrestricted argument
sequences. -/
theorem C2_counterexample :
    CacheInv cacheRoot.metadata ∧
    (runOpsRaw cacheRoot [Op.insertID "x" xDir, Op.insertID "x" xFile]).map
      (fun c' => (Registry.load c'.metadata "r").map
        (fun p => (p.IsDir, p.subdir, subdirCount c'.metadata (childList p)))) =
      some (some (true, 1, 0)) :=
  ⟨by decide, by decide⟩

/-- C4: as written the claim is false -- the linking branch appends
`item.IDInternal`, not the `id` argument.  Amended statement: with the
parent present (and distinct from the inserted key), a duplicate `id`
leaves the registry at a plain store, and otherwise the parent gains
`item.IDInternal` at the end of its child list, `subdir` is bumped iff
the item is a directory, and the item's parent reference is rewritten to
the parent's own id field. -/
theorem C4_insertID {c : Cache} {id : String} {item parent : DriveItem}
    (hpe : item.ParentID ≠ "") (hpi : item.ParentID ≠ id)
    (hpl : Registry.load c.metadata item.ParentID = some parent) :
    ((childList parent).contains id = true →
      (Cache.InsertID c id item).metadata = Registry.store c.metadata id item) ∧
    ((childList parent).contains id = false →
      ∀ k, Registry.load (Cache.InsertID c id item).metadata k =
        if k = id then some { item with Parent := ⟨parent.IDInternal⟩ }
        else if k = item.ParentID then
          some { parent with
            children := some (childList parent ++ [item.IDInternal]),
            subdir := if item.IsDir then parent.subdir + 1 else parent.subdir }
        else Registry.load c.metadata k) := by
  constructor
  · intro hdup
    exact insertID_dup_metadata hpe
      (by rw [Registry.load_store_other _ _ _ _ hpi]; exact hpl) hdup
  · intro hdup
    exact insertID_link_load hpe hpi hpl hdup

def itemZZ : DriveItem :=
  { IDInternal := "b2", NameInternal := "other.txt", Parent := ⟨"a"⟩,
    dirFlag := false, children := none, subdir := 0, Deleted := false }

theorem C4_witness :
    Registry.load (Cache.InsertID cacheFull "zz" itemZZ).metadata "a" =
      if "a" = "zz" then some { itemZZ with Parent := ⟨dirA.IDInternal⟩ }
      else if "a" = itemZZ.ParentID then
        some { dirA with
          children := some (childList dirA ++ [itemZZ.IDInternal]),
          subdir := if itemZZ.IsDir then dirA.subdir + 1 else dirA.subdir }
      else Registry.load cacheFull.metadata "a" :=
  (C4_insertID (by decide) (by decide) (by decide)).2 (by decide) "a"

/-- C4 counterexample: inserting under key `"zz"` an item whose own id
field reads `"b2"` appends `"b2"` -- not the `id` argument `"zz"` -- to
the parent's child list, though all of the claim's premises hold. -/
theorem C4_counterexample :
    (Registry.load cacheFull.metadata itemZZ.ParentID).isSome = true ∧
    (childList dirA).contains "zz" = false ∧
    ((Cache.InsertID cacheFull "zz" itemZZ).GetID "a").map childList =
      some ["b", "b2"] ∧
    "zz" ∉ ["b", "b2"] := by decide

/-- C5: as written the claim is false -- `Delete` resolves the path with
a `nil` auth, so remote calls are NOT permitted.  Amended statement: the
resolution performed by `Delete` leaves the cache untouched and issues
zero remote fetches, and the deletion is then delegated to `DeleteID` on
the id resolved from the cache alone (no-op when nothing resolved). -/
theorem C5_delete_resolves_locally (c : Cache) (key : String)
    (remote : String → List DriveItem) :
    (Cache.Get c (lowerStr key) none remote).2.2.1 = c ∧
    (Cache.Get c (lowerStr key) none remote).2.2.2 = 0 ∧
    Cache.Delete c key remote =
      (match (Cache.Get c (lowerStr key) none remote).2.1 with
       | some item => Cache.DeleteID c item.ID
       | none => some c) := by
  obtain ⟨hc, hn⟩ := get_nil_auth c (lowerStr key) remote
  refine ⟨hc, hn, ?_⟩
  show (match (Cache.Get c (lowerStr key) none remote).2.1 with
    | some item =>
      Cache.DeleteID (Cache.Get c (lowerStr key) none remote).2.2.1 item.ID
    | none => some (Cache.Get c (lowerStr key) none remote).2.2.1) = _
  rw [hc]

/-- C5 counterexample: with the `docs` directory not yet populated, the
file resolves (and is deleted) when the path walk is given credentials,
as the spec-modelled `deleteSpec` does; the code's `Delete` passes `nil`
credentials, fails to resolve, and leaves the cache unchanged. -/
theorem C5_counterexample :
    Cache.Delete cacheCold "/docs/file.txt" remFix = some cacheCold ∧
    deleteSpec cacheCold "/docs/file.txt" (some "t") remFix ≠ some cacheCold ∧
    (deleteSpec cacheCold "/docs/file.txt" (some "t") remFix).map
      (fun c => (Registry.load c.metadata "b").isSome) = some false := by decide

/-- C9: on a successfully fetched and parsed page, `pollDeltas` applies
every record in order (the `foldlM` premise), then stores the next-page
link (prefix-trimmed) and reports "continue" when one is present, and
otherwise stores the terminal delta link (prefix-trimmed) and reports
"stop". -/
theorem C9_pollDeltas {c c1 : Cache} {page : deltaResponse}
    (happ : page.Values.foldlM Cache.applyDelta c = some c1) :
    (page.NextLink ≠ "" →
      Cache.pollDeltas c page =
        some ({ c1 with deltaLink := goTrimPref page.NextLink graphURL }, true)) ∧
    (page.NextLink = "" →
      Cache.pollDeltas c page =
        some ({ c1 with deltaLink := goTrimPref page.DeltaLink graphURL }, false)) := by
  constructor
  · intro h
    unfold Cache.pollDeltas
    simp only [happ]
    rw [if_pos h]
  · intro h
    unfold Cache.pollDeltas
    simp only [happ]
    rw [if_neg (fun hne => hne h)]

def pageFix : deltaResponse :=
  { NextLink := "", DeltaLink := "https://graph.microsoft.com/v1.0/delta2",
    Values := [recDel] }

theorem C9_witness :
    (pageFix.NextLink ≠ "" →
      Cache.pollDeltas cacheFull pageFix =
        some ({ c1res with deltaLink := goTrimPref pageFix.NextLink graphURL },
          true)) ∧
    (pageFix.NextLink = "" →
      Cache.pollDeltas cacheFull pageFix =
        some ({ c1res with deltaLink := goTrimPref pageFix.DeltaLink graphURL },
          false)) :=
  C9_pollDeltas (show pageFix.Values.foldlM Cache.applyDelta cacheFull =
    some c1res by decide)

/-- C10: with the registry holding an item under `id`, `DeleteID` crashes
(dereferences the `nil` parent it locked without a presence check)
exactly when the item's `parent_id` does not resolve -- so it is
fault-free precisely under the implicit precondition that the parent is
cached.  The root and orphaned items fall under the crash side. -/
theorem C10_deleteID_nil_parent {c : Cache} {id : String} {item : DriveItem}
    (hit : Registry.load c.metadata id = some item) :
    (Cache.DeleteID c id = none ↔
      Registry.load c.metadata item.ParentID = none) := by
  constructor
  · intro h
    cases hpar : Registry.load c.metadata item.ParentID with
    | none => rfl
    | some parent =>
      rw [deleteID_eq_found hit hpar] at h
      cases h
  · intro h
    exact deleteID_eq_crash hit h

theorem C10_witness :
    Cache.DeleteID cacheFull "r" = none ↔
      Registry.load cacheFull.metadata rootFix.ParentID = none :=
  C10_deleteID_nil_parent (by decide)

/-- C3: as written the claim is false (see the counterexample with
`a = b`).  Amended statement: for `a ≠ b` with the target id fresh, an
invariant-satisfying registry, the parent present and listing `a`, a
successful `MoveID(a, b)` makes `GetID(b)` return the moved item (its id
field now reading `b`), makes `GetID(a)` return nothing, and replaces the
occurrence of `a` in the parent's child list by `b` in place, preserving
the order. -/
theorem C3_moveID {c : Cache} {a b : String} {item0 parent : DriveItem}
    {cc : Cache}
    (hInv : CacheInv c.metadata)
    (hita : Registry.load c.metadata a = some item0)
    (hb : Registry.load c.metadata b = none)
    (hpar : Registry.load c.metadata item0.Parent.ID = some parent)
    (hmem : a ∈ childList parent)
    (hr : Cache.MoveID c a b = some (none, cc)) :
    Cache.GetID cc b = some (setItemID b item0) ∧
    Cache.GetID cc a = none ∧
    (setItemID b item0).ID = b ∧
    Registry.load cc.metadata item0.Parent.ID =
      some (replaceChildRef a b parent) ∧
    childList (replaceChildRef a b parent) =
      listReplaceFirst a b (childList parent) := by
  have hns := hInv.noSelf' hita
  have hab : a ≠ b := by
    intro h
    rw [h, hb] at hita
    cases hita
  have hpb : item0.Parent.ID ≠ b := by
    intro h
    rw [h, hb] at hpar
    cases hpar
  have hnotin := not_mem_listReplaceFirst hab (hInv.childNodup' hpar)
  obtain ⟨hload, -⟩ := moveID_result_load hita hb hpar hns hnotin (Or.inl hmem) hr
  refine ⟨?_, ?_, rfl, ?_, childList_replaceChildRef⟩
  · show Registry.load cc.metadata b = _
    rw [hload b, if_pos rfl]
  · show Registry.load cc.metadata a = none
    rw [hload a, if_neg hab, if_pos rfl]
  · rw [hload item0.Parent.ID, if_neg hpb, if_neg hns, if_pos rfl]

def c3res : Cache :=
  match Cache.MoveID cacheFull "b" "b2" with
  | some r => r.2
  | none => cacheFull

theorem C3_witness :
    Cache.GetID c3res "b2" = some (setItemID "b2" fileB) ∧
    Cache.GetID c3res "b" = none ∧
    (setItemID "b2" fileB).ID = "b2" ∧
    Registry.load c3res.metadata fileB.Parent.ID =
      some (replaceChildRef "b" "b2" dirA) ∧
    childList (replaceChildRef "b" "b2" dirA) =
      listReplaceFirst "b" "b2" (childList dirA) :=
  C3_moveID (by decide) (by decide) (by decide) (by decide) (by decide)
    (show Cache.MoveID cacheFull "b" "b2" = some (none, c3res) by decide)

/-- C3 counterexample: `MoveID(a, a)` on a cached file with its parent
present succeeds, yet `GetID(a)` still returns the item afterwards (the
claim requires `None`), and the item has moved to the end of the parent's
list rather than staying in place. -/
theorem C3_counterexample :
    (Registry.load cacheFull.metadata "b").isSome = true ∧
    (Registry.load cacheFull.metadata fileB.Parent.ID).isSome = true ∧
    (Cache.MoveID cacheFull "b" "b").map
      (fun r => (Cache.GetID r.2 "b").isSome) = some true := by decide

/-- C6: as written the claim is false -- when `id` is already listed by
the parent, `InsertID` leaves the parent alone but `DeleteID` then strips
the id, losing one list element.  Amended statement: for a fresh id
matching the item's own id field, with the parent present, the
`InsertID`/`DeleteID` pair completes and restores the parent's child list
(exactly, hence as a multiset) and its `subdir`. -/
theorem C6_insert_delete_roundtrip {c : Cache} {id : String}
    {item parent : DriveItem}
    (hInv : CacheInv c.metadata)
    (hid : item.IDInternal = id)
    (hfresh : Registry.load c.metadata id = none)
    (hpe : item.ParentID ≠ "") (hpi : item.ParentID ≠ id)
    (hpl : Registry.load c.metadata item.ParentID = some parent) :
    ∃ c', Cache.DeleteID (Cache.InsertID c id item) id = some c' ∧
      ∃ p', Registry.load c'.metadata item.ParentID = some p' ∧
        childList p' = childList parent ∧ p'.subdir = parent.subdir := by
  have hnm : id ∉ childList parent := by
    intro hmem
    obtain ⟨ch, hch, -⟩ := linked_load hInv hpl hmem
    rw [hfresh] at hch
    cases hch
  have hdup : (childList parent).contains id = false := by
    simpa using hnm
  have hload := insertID_link_load hpe hpi hpl hdup
  have hpid : parent.IDInternal = item.ParentID := hInv.keyCons' hpl
  have hit2 : Registry.load (Cache.InsertID c id item).metadata id =
      some { item with Parent := ⟨parent.IDInternal⟩ } := by
    rw [hload id, if_pos rfl]
  have hpar2 : Registry.load (Cache.InsertID c id item).metadata
      ({ item with Parent := ⟨parent.IDInternal⟩ } : DriveItem).ParentID =
      some { parent with
        children := some (childList parent ++ [item.IDInternal]),
        subdir := if item.IsDir then parent.subdir + 1 else parent.subdir } := by
    show Registry.load (Cache.InsertID c id item).metadata parent.IDInternal = _
    rw [show Registry.load (Cache.InsertID c id item).metadata parent.IDInternal =
      Registry.load (Cache.InsertID c id item).metadata item.ParentID from by
        rw [hpid]]
    rw [hload item.ParentID, if_neg hpi, if_pos rfl]
    rfl
  refine ⟨_, deleteID_eq_found hit2 hpar2, ?_⟩
  have hpi2 : ¬ item.ParentID = id := hpi
  have hself : ({ item with Parent := ⟨parent.IDInternal⟩ } : DriveItem).ParentID =
      item.ParentID := hpid
  rw [hself]
  rw [Registry.load_eraseKey_other _ _ _ hpi]
  rw [Registry.load_modifyAt_self]
  rw [hload item.ParentID, if_neg hpi, if_pos rfl]
  refine ⟨_, rfl, ?_, ?_⟩
  · show childList (unlinkChild id
      ({ item with Parent := ⟨parent.IDInternal⟩ } : DriveItem).IsDir
      { parent with
        children := some (childList parent ++ [item.IDInternal]),
        subdir := if item.IsDir then parent.subdir + 1 else parent.subdir }) =
      childList parent
    unfold unlinkChild
    rw [if_pos (by
      show ((childList parent ++ [item.IDInternal]).contains id) = true
      rw [hid]
      simp)]
    show (childList parent ++ [item.IDInternal]).erase id = childList parent
    rw [hid, List.erase_append_right _ hnm, List.erase_cons_head, List.append_nil]
  · show (unlinkChild id
      ({ item with Parent := ⟨parent.IDInternal⟩ } : DriveItem).IsDir
      { parent with
        children := some (childList parent ++ [item.IDInternal]),
        subdir := if item.IsDir then parent.subdir + 1 else parent.subdir }).subdir =
      parent.subdir
    unfold unlinkChild
    rw [if_pos (by
      show ((childList parent ++ [item.IDInternal]).contains id) = true
      rw [hid]
      simp)]
    show (if ({ item with Parent := ⟨parent.IDInternal⟩ } : DriveItem).IsDir then
      (if item.IsDir then parent.subdir + 1 else parent.subdir) - 1
      else (if item.IsDir then parent.subdir + 1 else parent.subdir)) =
      parent.subdir
    by_cases hd : item.IsDir
    · rw [if_pos (show ({ item with Parent := ⟨parent.IDInternal⟩ } :
        DriveItem).IsDir = true from hd), if_pos hd]
      exact Nat.succ_sub_one _
    · rw [if_neg (show ¬ ({ item with Parent := ⟨parent.IDInternal⟩ } :
        DriveItem).IsDir = true from hd), if_neg hd]

def itemC : DriveItem :=
  { IDInternal := "c", NameInternal := "c.txt", Parent := ⟨"a"⟩,
    dirFlag := false, children := none, subdir := 0, Deleted := false }

theorem C6_witness :
    ∃ c', Cache.DeleteID (Cache.InsertID cacheFull "c" itemC) "c" = some c' ∧
      ∃ p', Registry.load c'.metadata itemC.ParentID = some p' ∧
        childList p' = childList dirA ∧ p'.subdir = dirA.subdir :=
  C6_insert_delete_roundtrip (by decide) (by decide) (by decide) (by decide)
    (by decide) (by decide)

/-- C6 counterexample: inserting an id that the parent already lists is a
no-op on the parent, but the following `DeleteID` still unlinks it: the
parent's child list ends empty instead of being restored to `["b"]`. -/
theorem C6_counterexample :
    (Registry.load cacheFull.metadata "a").map childList = some ["b"] ∧
    ((Cache.DeleteID (Cache.InsertID cacheFull "b" fileB) "b").map
      (fun c' => (Registry.load c'.metadata "a").map childList)) =
      some (some []) := by decide

/-- C8: once a directory's `children` has committed from the unpopulated
sentinel to a populated list, any completing well-formed operation
sequence that neither deletes that id nor moves it away keeps it
populated, and every subsequent `GetChildrenID` on it is answered purely
from the cache: no remote call is made and the cache is returned
unchanged. -/
theorem C8_populated_persists {c c' : Cache} {ops : List Op} {id : String}
    {it : DriveItem} {l : List String}
    (hInv : CacheInv c.metadata)
    (hrun : runOps c ops = some c')
    (hit : Registry.load c.metadata id = some it)
    (hch : it.children = some l)
    (hdir : it.IsDir = true)
    (hops : ∀ op ∈ ops, removesId id op = false) :
    ∃ it' l', Registry.load c'.metadata id = some it' ∧
      it'.children = some l' ∧
      ∀ auth remote, Cache.GetChildrenID c' id auth remote =
        (none, childMapFromCache c'.metadata l', c', false) := by
  have hops' : ∀ op ∈ ops, op ≠ Op.deleteID id ∧
      ∀ b, op ≠ Op.moveID id b := by
    intro op hm
    have h := hops op hm
    constructor
    · intro he
      subst he
      simp [removesId] at h
    · intro b he
      subst he
      simp [removesId] at h
  obtain ⟨it', hit', hch', hdf⟩ := populated_runOps hInv hrun hit
    (by rw [hch]; intro hc; cases hc) hops'
  cases hch2 : it'.children with
  | none => exact absurd hch2 hch'
  | some l' =>
    refine ⟨it', l', hit', hch2, ?_⟩
    intro auth remote
    exact getChildrenID_cached hit' (hdf.trans hdir) hch2

def c8res : Cache :=
  match runOps cacheFull [Op.insertID "c" itemC, Op.deleteID "b"] with
  | some c => c
  | none => cacheFull

theorem C8_witness :
    ∃ it' l', Registry.load c8res.metadata "a" = some it' ∧
      it'.children = some l' ∧
      ∀ auth remote, Cache.GetChildrenID c8res "a" auth remote =
        (none, childMapFromCache c8res.metadata l', c8res, false) :=
  C8_populated_persists (by decide)
    (show runOps cacheFull [Op.insertID "c" itemC, Op.deleteID "b"] =
      some c8res by decide)
    (show Registry.load cacheFull.metadata "a" = some dirA by decide)
    (show dirA.children = some ["b"] from rfl) (by decide) (by decide)

theorem data_slash_append (n : String) : ("/" ++ n).data = '/' :: n.data := by
  cases n with
  | mk l => rfl

theorem lowerStr_slash_append (n : String) :
    lowerStr ("/" ++ n) = "/" ++ lowerStr n := by
  unfold lowerStr
  rw [data_slash_append]
  show String.mk (lowerChar '/' :: n.data.map lowerChar) = _
  rw [show lowerChar '/' = '/' from by decide]
  rfl

theorem mk_ne_empty_of_ne {n : String} (h : n ≠ "") : n.data ≠ [] := by
  intro hd
  apply h
  cases n with
  | mk l => cases hd; rfl

theorem slash_append_ne_root {n : String} (h : n ≠ "") : "/" ++ n ≠ "/" := by
  intro he
  apply mk_ne_empty_of_ne h
  have h2 := congrArg String.data he
  rw [data_slash_append] at h2
  injection h2

theorem slash_append_ne_empty (n : String) : "/" ++ n ≠ "" := by
  intro he
  have h2 := congrArg String.data he
  rw [data_slash_append] at h2
  cases h2

theorem trimSuffix_slash_clean {n : String} (h0 : n ≠ "")
    (hs : '/' ∉ n.data) : goTrimSuffixSlash ("/" ++ n) = "/" ++ n := by
  unfold goTrimSuffixSlash
  rw [data_slash_append]
  rw [if_neg]
  intro hc
  cases hd : n.data with
  | nil => exact mk_ne_empty_of_ne h0 hd
  | cons c cs =>
    rw [hd, List.getLast?_cons_cons] at hc
    obtain ⟨hne, hx⟩ := List.mem_getLast?_eq_getLast hc
    apply hs
    rw [hd, hx]
    exact List.getLast_mem hne

theorem splitChars_no_sep {sep : Char} : ∀ l : List Char, sep ∉ l →
    splitChars sep l = [l] := by
  intro l
  induction l with
  | nil => intro h; rfl
  | cons c cs ih =>
    intro h
    unfold splitChars
    rw [ih (fun hm => h (List.mem_cons_of_mem _ hm))]
    rw [if_neg (fun he => h (by rw [← he]; exact List.mem_cons_self _ _))]

theorem goSplitSlash_slash_clean {n : String} (hs : '/' ∉ n.data) :
    goSplitSlash ("/" ++ n) = ["", n] := by
  unfold goSplitSlash
  rw [data_slash_append]
  unfold splitChars
  rw [splitChars_no_sep n.data hs, if_pos rfl]
  cases n with
  | mk l => rfl

theorem filter_pair_ne_empty {n : String} (h0 : n ≠ "") :
    (["", n].filter (fun s => s ≠ "")) = [n] := by
  simp [h0]

theorem goBase_slash_clean {n : String} (h0 : n ≠ "") (hs : '/' ∉ n.data) :
    goBase ("/" ++ n) = n := by
  unfold goBase
  rw [if_neg (slash_append_ne_empty n)]
  rw [goSplitSlash_slash_clean hs, filter_pair_ne_empty h0]
  rfl

theorem goDir_slash_clean {n : String} (h0 : n ≠ "") (hs : '/' ∉ n.data) :
    goDir ("/" ++ n) = "/" := by
  unfold goDir
  rw [if_neg (slash_append_ne_empty n)]
  rw [goSplitSlash_slash_clean hs, filter_pair_ne_empty h0]
  rfl

/-- A one-file drive parameterized by the file's stored name: the root
lists the single file `x`. -/
def fsRoot : DriveItem :=
  { IDInternal := "r", NameInternal := "root", Parent := ⟨""⟩, dirFlag := true,
    children := some ["x"], subdir := 0, Deleted := false }

def fsFile (n : String) : DriveItem :=
  { IDInternal := "x", NameInternal := n, Parent := ⟨"r"⟩, dirFlag := false,
    children := none, subdir := 0, Deleted := false }

def fsCache (n : String) : Cache :=
  { metadata := [("r", fsRoot), ("x", fsFile n)], root := "r", deltaLink := "" }

def fsRootE : DriveItem := { fsRoot with children := some [] }

def fsCacheE : Cache :=
  { metadata := [("r", fsRootE)], root := "r", deltaLink := "" }

theorem fsGet {nx na : String} (auth : Option String)
    (remote : String → List DriveItem)
    (hlx : lowerStr nx = na) (h0 : na ≠ "") (hs : '/' ∉ na.data)
    (hla : lowerStr na = na) :
    Cache.Get (fsCache nx) ("/" ++ na) auth remote =
      (none, some (fsFile nx), fsCache nx, 0) := by
  simp only [Cache.Get]
  rw [if_neg (slash_append_ne_root h0)]
  rw [lowerStr_slash_append, hla, trimSuffix_slash_clean h0 hs,
    goSplitSlash_slash_clean hs]
  show getLoop auth remote (fsCache nx) [na] "r" none [] = _
  have hgc := @getChildrenID_cached (fsCache nx) "r" auth remote fsRoot ["x"]
    rfl rfl rfl
  have hmap : childMapFromCache (fsCache nx).metadata ["x"] =
      [(lowerStr nx, fsFile nx)] := rfl
  have hup : Registry.load [(lowerStr nx, fsFile nx)] na = some (fsFile nx) := by
    rw [hlx]
    simp [Registry.load, List.find?]
  simp only [getLoop, hgc, hmap, hup]
  rfl

theorem fsDelete {nx na : String} (remote : String → List DriveItem)
    (hlx : lowerStr nx = na) (h0 : na ≠ "") (hs : '/' ∉ na.data)
    (hla : lowerStr na = na) :
    Cache.Delete (fsCache nx) ("/" ++ na) remote = some fsCacheE := by
  simp only [Cache.Delete]
  rw [show lowerStr ("/" ++ na) = "/" ++ na from by
    rw [lowerStr_slash_append, hla]]
  rw [fsGet none remote hlx h0 hs hla]
  rfl

theorem fsInsert {nb : String} (auth : Option String)
    (remote : String → List DriveItem)
    (h0b : nb ≠ "") (hsb : '/' ∉ nb.data) (hlb : lowerStr nb = nb) :
    Cache.Insert fsCacheE ("/" ++ nb) auth (fsFile nb) remote =
      (none, fsCache nb) := by
  simp only [Cache.Insert]
  rw [show lowerStr ("/" ++ nb) = "/" ++ nb from by
    rw [lowerStr_slash_append, hlb]]
  rw [goDir_slash_clean h0b hsb]
  rfl

theorem fsMove {nx na nb : String} (auth : Option String)
    (remote : String → List DriveItem)
    (hlx : lowerStr nx = na)
    (h0a : na ≠ "") (hsa : '/' ∉ na.data) (hla : lowerStr na = na)
    (h0b : nb ≠ "") (hsb : '/' ∉ nb.data) (hlb : lowerStr nb = nb)
    (hne : na ≠ nb) :
    Cache.Move (fsCache nx) ("/" ++ na) ("/" ++ nb) auth remote =
      some (none, fsCache nb) := by
  simp only [Cache.Move, fsGet auth remote hlx h0a hsa hla,
    fsDelete remote hlx h0a hsa hla,
    goBase_slash_clean h0a hsa, goBase_slash_clean h0b hsb,
    ne_eq, hne, not_false_eq_true, ite_true,
    show (fsFile nx).SetName nb = fsFile nb from rfl,
    fsInsert auth remote h0b hsb hlb]

/-- C7: as written the claim is false -- the restoring move rewrites the
item's name to the basename spelled in the restoring path, and the path
walk only matches names case-insensitively, so the stored name's case is
lost (see the counterexample).  Amended statement: over the one-file
drive, for clean lowercase sibling basenames, `Move(a, b)` followed by
`Move(b, a)` exactly restores the tree structure (registry keys, parent
links and child lists), and the file's name ends as the basename of `a`:
the round trip is the identity on the whole cache precisely when the
stored name already equals that basename. -/
theorem C7_move_roundtrip {nx na nb : String}
    (auth auth2 : Option String)
    (remote remote2 : String → List DriveItem)
    (hlx : lowerStr nx = na)
    (h0a : na ≠ "") (hsa : '/' ∉ na.data) (hla : lowerStr na = na)
    (h0b : nb ≠ "") (hsb : '/' ∉ nb.data) (hlb : lowerStr nb = nb)
    (hne : na ≠ nb) :
    Cache.Move (fsCache nx) ("/" ++ na) ("/" ++ nb) auth remote =
      some (none, fsCache nb) ∧
    Cache.Move (fsCache nb) ("/" ++ nb) ("/" ++ na) auth2 remote2 =
      some (none, fsCache na) ∧
    (fsCache na = fsCache nx ↔ nx = na) := by
  refine ⟨fsMove auth remote hlx h0a hsa hla h0b hsb hlb hne,
    fsMove auth2 remote2 hlb h0b hsb hlb h0a hsa hla (Ne.symm hne), ?_⟩
  constructor
  · intro h
    have h2 := congrArg (fun c => (Registry.load c.metadata "x").map
      (fun it => it.NameInternal)) h
    simp only [fsCache, fsFile, Registry.load, List.find?] at h2
    simpa using h2.symm
  · intro h
    rw [h]

theorem C7_witness :
    Cache.Move (fsCache "File.txt") ("/" ++ "file.txt") ("/" ++ "other.txt")
      (some "t") (fun _ => []) = some (none, fsCache "other.txt") ∧
    Cache.Move (fsCache "other.txt") ("/" ++ "other.txt") ("/" ++ "file.txt")
      (some "t") (fun _ => []) = some (none, fsCache "file.txt") ∧
    (fsCache "file.txt" = fsCache "File.txt" ↔ "File.txt" = "file.txt") :=
  C7_move_roundtrip (some "t") (some "t") (fun _ => []) (fun _ => [])
    (by decide) (by decide) (by decide) (by decide) (by decide) (by decide)
    (by decide) (by decide)

/-- C7 counterexample: the file is stored as `File.txt`; moving it by its
case-insensitive path `/file.txt` to `/other.txt` and back leaves it
named `file.txt`, not `File.txt` -- the round trip is not the identity on
names. -/
theorem C7_counterexample :
    ((Cache.Move (fsCache "File.txt") "/file.txt" "/other.txt" (some "t")
        (fun _ => [])).bind (fun r1 =>
      (Cache.Move r1.2 "/other.txt" "/file.txt" (some "t")
        (fun _ => [])).map (fun r2 =>
        (Registry.load r2.2.metadata "x").map (fun it => it.NameInternal)))) =
      some (some "file.txt") ∧ "file.txt" ≠ "File.txt" := by decide
